import Mathlib

/-!
# dspider: retry policy, registries and the crawl worker

A shallow embedding of `retrier.go`, `spider.go` and `storage.go`.

* Go `error` values are `Option GoError` (`none` is the nil error).
* Go `int` is modelled as `Int` with explicit two's complement wrap-around on
  increment (64-bit platform).
* External capabilities (HTTP client, crawlers, parsers, storages, the clock)
  are oracles whose answers may depend on everything that happened before; each
  call is recorded in an event trace.
-/

namespace dspider

/-! ## Go basics -/

/-- A non-nil Go `error` value, identified by its message. -/
structure GoError where
  msg : String
deriving DecidableEq, Repr

/-- Go `error`: `none` is the nil error. -/
abbrev error := Option GoError

/-- Largest value of a Go `int` on a 64-bit platform. -/
def maxInt : Int := 2 ^ 63 - 1

/-- Smallest value of a Go `int` on a 64-bit platform. -/
def minInt : Int := -(2 ^ 63)

/-- Two's complement wrap-around of a mathematical integer into the 64-bit `int` range. -/
def wrapInt (x : Int) : Int := (x + 2 ^ 63) % 2 ^ 64 - 2 ^ 63

/-! ## retrier.go -/

/-- `type SimpleRetrier struct { Times int; Interval time.Duration }`;
`time.Duration` is an `int64` count of nanoseconds. -/
structure SimpleRetrier where
  Times : Int
  Interval : Int
deriving DecidableEq, Repr

/-- The `for i := 0; i <= r.Times; i++` loop of `RunWithRetry`, started at counter `i`
with the named result `err`.  The job and `time.Sleep` act on an explicit state `σ`.
Each evaluation of the loop condition consumes one unit of fuel; `none` means the
fuel ran out.  `i++` wraps around like a Go `int`. -/
def RunWithRetry_loop {σ : Type} (sleep : Int → σ → σ) (r : SimpleRetrier)
    (job : σ → error × σ) : Nat → Int → error → σ → Option (error × σ)
  | 0, _, _, _ => none
  | fuel + 1, i, err, s =>
    if i ≤ r.Times then
      match job s with
      | (none, s1) => some (none, s1)
      | (some e, s1) =>
        RunWithRetry_loop sleep r job fuel (wrapInt (i + 1)) (some e) (sleep r.Interval s1)
    else some (err, s)

/-- `func (r *SimpleRetrier) RunWithRetry(job func() error) (err error)`. -/
def RunWithRetry {σ : Type} (sleep : Int → σ → σ) (r : SimpleRetrier)
    (job : σ → error × σ) (fuel : Nat) (s : σ) : Option (error × σ) :=
  RunWithRetry_loop sleep r job fuel 0 none s

/-- What a run of `RunWithRetry` does, as seen from outside: it calls the job
(which returns an error value) and it calls `time.Sleep`. -/
inductive RetryEvent where
  | call (err : error)
  | sleep (d : Int)
deriving DecidableEq, Repr

/-- Number of job invocations recorded in a log. -/
def calls : List RetryEvent → Nat
  | [] => 0
  | RetryEvent.call _ :: l => calls l + 1
  | RetryEvent.sleep _ :: l => calls l

/-- Number of `time.Sleep` calls recorded in a log. -/
def sleeps : List RetryEvent → Nat
  | [] => 0
  | RetryEvent.call _ :: l => sleeps l
  | RetryEvent.sleep _ :: l => sleeps l + 1

/-- A job given by its sequence of attempt outcomes: the `n`-th invocation
(counting from 0) returns `outcomes n`; the invocation is appended to the log. -/
def seqJob (outcomes : Nat → error) (log : List RetryEvent) : error × List RetryEvent :=
  (outcomes (calls log), log ++ [RetryEvent.call (outcomes (calls log))])

/-- The effect of `time.Sleep(d)` on a log: the delay is recorded. -/
def logSleep (d : Int) (log : List RetryEvent) : List RetryEvent :=
  log ++ [RetryEvent.sleep d]

/-- The loop of `RunWithRetry` unrolled `n` times without counter and fuel; used to
reason about runs in which the counter does not overflow. -/
def attemptN {σ : Type} (sleep : Int → σ → σ) (iv : Int) (job : σ → error × σ) :
    Nat → error → σ → error × σ
  | 0, err, s => (err, s)
  | n + 1, _, s =>
    match job s with
    | (none, s1) => (none, s1)
    | (some e, s1) => attemptN sleep iv job n (some e) (sleep iv s1)

/-- Log of the failed attempts number `c`, ..., `c + n - 1` of a job given by its outcome
sequence: each attempt is followed by a delay of `iv`. -/
def failedFrom (outcomes : Nat → error) (iv : Int) : Nat → Nat → List RetryEvent
  | _, 0 => []
  | c, n + 1 =>
    RetryEvent.call (outcomes c) :: RetryEvent.sleep iv :: failedFrom outcomes iv (c + 1) n

/-- A job that fails on its first attempt and succeeds on its second. -/
def secondSucceeds : Nat → error := fun n => if n = 1 then none else some ⟨"timeout"⟩

/-- A job that fails on every attempt. -/
def alwaysFail : Nat → error := fun _ => some ⟨"HTTP 500"⟩

/-! ## storage.go: records and the SQL storage -/

/-- Values a struct field can hold, as far as the storage looks at them: only the
`reflect.String` kind is distinguished. -/
inductive Value where
  | str (s : String)
  | int (n : Int)
  | bool (b : Bool)
  | other (repr : String)
deriving DecidableEq, Repr

/-- One field of a struct as seen through `reflect`: its name, whether the name is
exported, the value of its `sql` struct tag (`sf.Tag.Get(SQL_STRUCT_TAG_NAME)`, empty when
the tag is absent) and its value (`fv`). -/
structure StructField where
  Name : String
  exported : Bool
  sqlTag : String
  value : Value
deriving DecidableEq, Repr

/-- A `doc interface{}` handed to a storage. -/
inductive Doc where
  | structPtr (fields : List StructField)
  | ptrOther (desc : String)
  | nonPtr (desc : String)
deriving DecidableEq, Repr

/-- `SQL_STRUCT_TAG_TABLE`. -/
def SQL_STRUCT_TAG_TABLE : String := "table"

/-- Ways in which a call does not return: `glog.Fatalf` or a run-time panic. -/
inductive Crash where
  | fatal (msg : String)
  | panic (msg : String)
deriving DecidableEq, Repr

/-- One `db.Exec(query, args...)` call. -/
structure Stmt where
  query : String
  args : List Value
deriving DecidableEq, Repr

/-- The `*sql.DB` behind a `SqlStorage`: the error returned by `Exec` may depend on the
statements executed before. -/
structure SqlStorage where
  Exec : List Stmt → Stmt → error

/-- Go map assignment `m[k] = v` on a map kept as a list of entries with distinct keys. -/
def mapSet : List (String × Value) → String → Value → List (String × Value)
  | [], k, v => [(k, v)]
  | (k1, v1) :: m, k, v => if k1 = k then (k, v) :: m else (k1, v1) :: mapSet m k v

/-- `strings.Repeat(s, count)`: panics (`none`) on a negative count. -/
def stringsRepeat (s : String) (count : Int) : Option String :=
  if count < 0 then none else some (String.join (List.replicate count.toNat s))

/-- The `for name, value := range columnMap` loop of `insert`, over the entries in the
order in which `range` visits them. -/
def SqlStorage.insert_loop :
    List (String × Value) → String → List Value → Bool → String × List Value
  | [], buf, args, _ => (buf, args)
  | (name, value) :: rest, buf, args, first =>
    if first then SqlStorage.insert_loop rest (buf ++ name) (args ++ [value]) false
    else SqlStorage.insert_loop rest (buf ++ ", " ++ name) (args ++ [value]) false

/-- `func (s *SqlStorage) insert(table string, columnMap map[string]interface{}) error`.
`rangeOrder` is the order in which `range` visits the map; `executed` are the statements
executed on the database so far.  The mutex is not modelled. -/
def SqlStorage.insert (s : SqlStorage)
    (rangeOrder : List (String × Value) → List (String × Value))
    (table : String) (columnMap : List (String × Value)) (executed : List Stmt) :
    Except Crash (error × List Stmt) :=
  let r := SqlStorage.insert_loop (rangeOrder columnMap) ("INSERT INTO " ++ table ++ " (") [] true
  match stringsRepeat "?, " ((r.2.length : Int) - 1) with
  | none => Except.error (Crash.panic "strings: negative Repeat count")
  | some marks =>
    let stmt : Stmt := ⟨r.1 ++ ") VALUES (" ++ marks ++ "?)", r.2⟩
    Except.ok (s.Exec executed stmt, executed ++ [stmt])

/-- The `for i := 0; i < t.NumField(); i++` loop of `AddDoc`.  `fv.String()` reads a
string field whether or not it is exported; `fv.Interface()` panics on a field that is
not exported. -/
def SqlStorage.AddDoc_loop :
    List StructField → String → List (String × Value) → Except Crash (String × List (String × Value))
  | [], table, columnMap => Except.ok (table, columnMap)
  | sf :: rest, table, columnMap =>
    if sf.sqlTag = SQL_STRUCT_TAG_TABLE then
      match sf.value with
      | Value.str t => SqlStorage.AddDoc_loop rest t columnMap
      | _ => Except.error (Crash.fatal "The field with 'table' tag should be string")
    else if sf.sqlTag = "" then SqlStorage.AddDoc_loop rest table columnMap
    else if sf.exported then
      SqlStorage.AddDoc_loop rest table (mapSet columnMap sf.sqlTag sf.value)
    else
      Except.error (Crash.panic
        "reflect.Value.Interface: cannot return value obtained from unexported field or method")

/-- `func (s *SqlStorage) AddDoc(doc interface{}) error`. -/
def SqlStorage.AddDoc (s : SqlStorage)
    (rangeOrder : List (String × Value) → List (String × Value))
    (doc : Doc) (executed : List Stmt) : Except Crash (error × List Stmt) :=
  match doc with
  | Doc.nonPtr _ => Except.error (Crash.fatal "Expecting a struct pointer")
  | Doc.ptrOther _ => Except.error (Crash.panic "reflect: NumField of non-struct type")
  | Doc.structPtr fields =>
    match SqlStorage.AddDoc_loop fields "" [] with
    | Except.error c => Except.error c
    | Except.ok (table, columnMap) => s.insert rangeOrder table columnMap executed

/-! ## spider.go -/

/-- A `*http.Response` that is not nil. -/
structure Response where
  StatusCode : Int
  Body : String
deriving DecidableEq, Repr

/-- The shared `*http.Client`. -/
structure Client where
  name : String
deriving DecidableEq, Repr

/-- A registered `Crawler` capability. -/
structure Crawler where
  name : String
deriving DecidableEq, Repr

/-- A registered `DocParser` capability. -/
structure DocParser where
  name : String
deriving DecidableEq, Repr

/-- A registered `Storage` capability. -/
structure Storage where
  name : String
deriving DecidableEq, Repr

/-- A compiled `*regexp.Regexp`: its source text and its `MatchString`. -/
structure Regexp where
  expr : String
  MatchString : String → Bool

/-- `type docParserSpec struct`. -/
structure docParserSpec where
  regex : Regexp
  dp : DocParser

/-- `type storageSpec struct`. -/
structure storageSpec where
  regex : Regexp
  s : Storage

/-- `type crawlerSpec struct`. -/
structure crawlerSpec where
  regex : Regexp
  c : Crawler

/-- `type SimpleSpider struct`, without the queue and the wait group of the worker pool. -/
structure SimpleSpider where
  client : Client
  parsers : List docParserSpec
  storages : List storageSpec
  crawlers : List crawlerSpec
  retrier : SimpleRetrier

/-- Calls of one worker into the outside world, with what they returned. -/
inductive Event where
  | get (client : Client) (url : String) (resp : Option Response) (err : error)
  | crawl (c : Crawler) (client : Client) (url : String) (resp : Option Response) (err : error)
  | sleep (d : Int)
  | parse (dp : DocParser) (url : String) (resp : Option Response) (err : error)
  | close (resp : Response)
  | addDoc (st : Storage) (doc : Doc) (err : error)
deriving DecidableEq, Repr

/-- The outside world: what `client.Get`, `Crawler.Crawl`, `DocParser.Parse` and
`Storage.AddDoc` return, given everything that happened before.  A parser is a black
box: what it does through the spider handle it is given is part of its call. -/
structure World where
  Get : List Event → Client → String → Option Response × error
  Crawl : List Event → Crawler → Client → String → Option Response × error
  Parse : List Event → DocParser → String → Option Response → error
  AddDoc : List Event → Storage → Doc → error

/-- `func NewSimpleSpider(client, maxCrawls, retrier)`: the registries start empty.
`maxCrawls` is the number of worker goroutines; `s.wg.Add(maxCrawls)` panics (`none`)
on a negative count. -/
def NewSimpleSpider (client : Client) (maxCrawls : Int) (retrier : SimpleRetrier) :
    Option SimpleSpider :=
  if maxCrawls < 0 then none
  else some { client := client, parsers := [], storages := [], crawlers := [],
              retrier := retrier }

/-- `func (s *SimpleSpider) AddDocParser(regex string, dp DocParser)`; `MustCompile`
panics (`none`) when the pattern does not compile. -/
def SimpleSpider.AddDocParser (MustCompile : String → Option Regexp) (s : SimpleSpider)
    (regex : String) (dp : DocParser) : Option SimpleSpider :=
  match MustCompile regex with
  | none => none
  | some re => some { s with parsers := s.parsers ++ [⟨re, dp⟩] }

/-- `func (s *SimpleSpider) AddStorage(regex string, storage Storage)`. -/
def SimpleSpider.AddStorage (MustCompile : String → Option Regexp) (s : SimpleSpider)
    (regex : String) (storage : Storage) : Option SimpleSpider :=
  match MustCompile regex with
  | none => none
  | some re => some { s with storages := s.storages ++ [⟨re, storage⟩] }

/-- `func (s *SimpleSpider) AddCrawler(regex string, c Crawler)`. -/
def SimpleSpider.AddCrawler (MustCompile : String → Option Regexp) (s : SimpleSpider)
    (regex : String) (c : Crawler) : Option SimpleSpider :=
  match MustCompile regex with
  | none => none
  | some re => some { s with crawlers := s.crawlers ++ [⟨re, c⟩] }

/-- The `for _, spec := range s.storages` loop of `AddDoc`. -/
def SimpleSpider.AddDoc_loop (w : World) :
    List storageSpec → String → Doc → List Event → error × List Event
  | [], urlStr, _, tr => (some ⟨"no storage specified for '" ++ urlStr ++ "'"⟩, tr)
  | spec :: rest, urlStr, doc, tr =>
    if spec.regex.MatchString urlStr then
      (w.AddDoc tr spec.s doc, tr ++ [Event.addDoc spec.s doc (w.AddDoc tr spec.s doc)])
    else SimpleSpider.AddDoc_loop w rest urlStr doc tr

/-- `func (s *SimpleSpider) AddDoc(urlStr string, doc interface{}) error`. -/
def SimpleSpider.AddDoc (w : World) (s : SimpleSpider) (urlStr : String) (doc : Doc)
    (tr : List Event) : error × List Event :=
  SimpleSpider.AddDoc_loop w s.storages urlStr doc tr

/-- The `for _, spec := range s.parsers` loop of `docParser`. -/
def SimpleSpider.docParser_loop : List docParserSpec → String → Option DocParser
  | [], _ => none
  | spec :: rest, urlStr =>
    if spec.regex.MatchString urlStr then some spec.dp
    else SimpleSpider.docParser_loop rest urlStr

/-- `func (s *SimpleSpider) docParser(urlStr string) DocParser`; `none` is the nil parser. -/
def SimpleSpider.docParser (s : SimpleSpider) (urlStr : String) : Option DocParser :=
  SimpleSpider.docParser_loop s.parsers urlStr

/-- The value of the local variable `crawler` of `crawl`: `s.client.Get`, or the closure
calling a registered crawler. -/
inductive Fetcher where
  | clientGet
  | viaCrawler (c : Crawler)
deriving DecidableEq, Repr

/-- The `for _, spec := range s.crawlers` loop of `crawl`, which leaves `crawler` at
`s.client.Get` unless a pattern matches. -/
def SimpleSpider.crawl_select : List crawlerSpec → String → Fetcher
  | [], _ => Fetcher.clientGet
  | spec :: rest, urlStr =>
    if spec.regex.MatchString urlStr then Fetcher.viaCrawler spec.c
    else SimpleSpider.crawl_select rest urlStr

/-- The event recorded by one call `crawler(urlStr)`. -/
def SimpleSpider.fetchEvent (w : World) (s : SimpleSpider) (f : Fetcher) (urlStr : String)
    (tr : List Event) : Event :=
  match f with
  | Fetcher.clientGet =>
    Event.get s.client urlStr (w.Get tr s.client urlStr).1 (w.Get tr s.client urlStr).2
  | Fetcher.viaCrawler c =>
    Event.crawl c s.client urlStr (w.Crawl tr c s.client urlStr).1 (w.Crawl tr c s.client urlStr).2

/-- The result `(resp, err)` of one call `crawler(urlStr)`. -/
def SimpleSpider.fetchResult (w : World) (s : SimpleSpider) (f : Fetcher) (urlStr : String)
    (tr : List Event) : Option Response × error :=
  match f with
  | Fetcher.clientGet => w.Get tr s.client urlStr
  | Fetcher.viaCrawler c => w.Crawl tr c s.client urlStr

/-- The variables the job closure of `crawl` works on: the trace of the world and the
named results `resp` and `err`. -/
structure CrawlVars where
  trace : List Event
  resp : Option Response
  err : error
deriving DecidableEq, Repr

/-- The closure `func() error { resp, err = crawler(urlStr); return err }`. -/
def SimpleSpider.crawl_job (w : World) (s : SimpleSpider) (f : Fetcher) (urlStr : String)
    (v : CrawlVars) : error × CrawlVars :=
  ((SimpleSpider.fetchResult w s f urlStr v.trace).2,
    { trace := v.trace ++ [SimpleSpider.fetchEvent w s f urlStr v.trace],
      resp := (SimpleSpider.fetchResult w s f urlStr v.trace).1,
      err := (SimpleSpider.fetchResult w s f urlStr v.trace).2 })

/-- The effect of `time.Sleep(d)` inside `crawl`. -/
def SimpleSpider.crawl_sleep (d : Int) (v : CrawlVars) : CrawlVars :=
  { v with trace := v.trace ++ [Event.sleep d] }

/-- `func (s *SimpleSpider) crawl(urlStr string) (resp *http.Response, err error)`.
The value returned by `RunWithRetry` is dropped; the named results are returned. -/
def SimpleSpider.crawl (fuel : Nat) (w : World) (s : SimpleSpider) (urlStr : String)
    (tr : List Event) : Option ((Option Response × error) × List Event) :=
  match RunWithRetry SimpleSpider.crawl_sleep s.retrier
      (SimpleSpider.crawl_job w s (SimpleSpider.crawl_select s.crawlers urlStr) urlStr) fuel
      { trace := tr, resp := none, err := none } with
  | none => none
  | some (_, v) => some ((v.resp, v.err), v.trace)

/-- How the processing of a URL ended: the trace so far, and whether the worker
panicked on a nil pointer dereference. -/
structure Outcome where
  trace : List Event
  panicked : Bool
deriving DecidableEq, Repr

/-- The body of the `for urlStr := range s.queue` loop of `crawlLoop`: the processing of
one dequeued URL.  `glog` output is not modelled. -/
def SimpleSpider.crawlLoop_body (fuel : Nat) (w : World) (s : SimpleSpider) (urlStr : String)
    (tr : List Event) : Option Outcome :=
  match s.docParser urlStr with
  | none => some ⟨tr, false⟩
  | some dp =>
    match s.crawl fuel w urlStr tr with
    | none => none
    | some ((resp, none), tr1) =>
      match resp with
      | some r =>
        some ⟨tr1 ++ [Event.parse dp urlStr resp (w.Parse tr1 dp urlStr resp), Event.close r], false⟩
      | none =>
        some ⟨tr1 ++ [Event.parse dp urlStr resp (w.Parse tr1 dp urlStr resp)], true⟩
    | some ((_, some _), tr1) =>
      some ⟨tr1 ++ [Event.parse dp urlStr none (w.Parse tr1 dp urlStr none)], false⟩

/-- `func (s *SimpleSpider) crawlLoop()` of one worker, over the URLs it dequeues. -/
def SimpleSpider.crawlLoop (fuel : Nat) (w : World) (s : SimpleSpider) :
    List String → List Event → Option Outcome
  | [], tr => some ⟨tr, false⟩
  | urlStr :: rest, tr =>
    match s.crawlLoop_body fuel w urlStr tr with
    | none => none
    | some ⟨tr1, true⟩ => some ⟨tr1, true⟩
    | some ⟨tr1, false⟩ => SimpleSpider.crawlLoop fuel w s rest tr1

/-! ### Helpers for stating properties of SQL statements -/

/-- The fields of a struct that carry a column tag: the `sql` tag is neither absent
nor `table`. -/
def columnFields (fields : List StructField) : List StructField :=
  fields.filter (fun sf => decide (sf.sqlTag ≠ SQL_STRUCT_TAG_TABLE ∧ sf.sqlTag ≠ ""))

/-- A database that accepts every statement. -/
def acceptingDB : SqlStorage := ⟨fun _ _ => none⟩

/-- The record of the scenario: `{table: "t", id: 1, name: "x"}`, with one field
without tag. -/
def scenarioRow : List StructField :=
  [⟨"Table", true, "table", Value.str "t"⟩, ⟨"ID", true, "id", Value.int 1⟩,
   ⟨"note", false, "", Value.str "scratch"⟩, ⟨"Name", true, "name", Value.str "x"⟩]

/-- A record whose column field `id` is not exported. -/
def privateRow : List StructField :=
  [⟨"Table", true, "table", Value.str "t"⟩, ⟨"id", false, "id", Value.int 1⟩]

/-- The table name the field loop of `AddDoc` ends with: the string of the last
`table` field, or the name it started with. -/
def tableName : List StructField → String → String
  | [], table => table
  | sf :: rest, table =>
    if sf.sqlTag = SQL_STRUCT_TAG_TABLE then
      match sf.value with
      | Value.str t => tableName rest t
      | _ => tableName rest table
    else tableName rest table

/-- The column map the field loop of `AddDoc` builds on top of `m`: one map assignment
per column field, in field order. -/
def columnMapFrom (m : List (String × Value)) (fields : List StructField) :
    List (String × Value) :=
  (columnFields fields).foldl (fun acc sf => mapSet acc sf.sqlTag sf.value) m

/-! ### Helpers for stating properties of traces and registries -/

/-- Trace after `n` failed fetch attempts on top of `tr`: each attempt is followed by
a delay of `iv`. -/
def SimpleSpider.failedAttempts (w : World) (s : SimpleSpider) (f : Fetcher) (urlStr : String)
    (iv : Int) : Nat → List Event → List Event
  | 0, tr => tr
  | n + 1, tr =>
    SimpleSpider.failedAttempts w s f urlStr iv n
      (tr ++ [SimpleSpider.fetchEvent w s f urlStr tr, Event.sleep iv])

/-- Trace of the worker after the first `i` fetch attempts of `crawl` on `urlStr` have
failed, starting from the trace `tr`. -/
def SimpleSpider.afterFailed (w : World) (s : SimpleSpider) (urlStr : String)
    (tr : List Event) (i : Nat) : List Event :=
  SimpleSpider.failedAttempts w s (SimpleSpider.crawl_select s.crawlers urlStr) urlStr
    s.retrier.Interval i tr

/-- The event recorded by fetch attempt number `i` of `crawl` on `urlStr`. -/
def SimpleSpider.attemptEvent (w : World) (s : SimpleSpider) (urlStr : String)
    (tr : List Event) (i : Nat) : Event :=
  SimpleSpider.fetchEvent w s (SimpleSpider.crawl_select s.crawlers urlStr) urlStr
    (s.afterFailed w urlStr tr i)

/-- The `(resp, err)` recorded by the last fetch event of a trace, `(nil, nil)` when
the trace holds no fetch event. -/
def lastFetch (evs : List Event) : Option Response × error :=
  evs.foldl (fun acc e =>
    match e with
    | Event.get _ _ resp err => (resp, err)
    | Event.crawl _ _ _ resp err => (resp, err)
    | _ => acc) (none, none)

/-- The event is a call of fetcher `f` on `urlStr` with the spider's client. -/
def Event.isFetchBy (s : SimpleSpider) (f : Fetcher) (urlStr : String) : Event → Prop
  | Event.get client u _ _ => f = Fetcher.clientGet ∧ client = s.client ∧ u = urlStr
  | Event.crawl c client u _ _ => f = Fetcher.viaCrawler c ∧ client = s.client ∧ u = urlStr
  | _ => False

/-- The event is a delay. -/
def Event.isSleep : Event → Prop
  | Event.sleep _ => True
  | _ => False

/-- Every fetch capability returns a non-nil response whenever it returns a nil error. -/
def World.WellBehaved (w : World) : Prop :=
  (∀ tr client u, (w.Get tr client u).2 = none → (w.Get tr client u).1 ≠ none) ∧
  (∀ tr c client u, (w.Crawl tr c client u).2 = none → (w.Crawl tr c client u).1 ≠ none)

/-! ### Registration sequences -/

/-- One registration call made by the application during setup. -/
inductive Registration where
  | docParser (regex : String) (dp : DocParser)
  | crawler (regex : String) (c : Crawler)
  | storage (regex : String) (st : Storage)
deriving DecidableEq, Repr

/-- Performing one registration call; `none` when `MustCompile` panics. -/
def SimpleSpider.register (MustCompile : String → Option Regexp) (s : SimpleSpider) :
    Registration → Option SimpleSpider
  | Registration.docParser regex dp => s.AddDocParser MustCompile regex dp
  | Registration.crawler regex c => s.AddCrawler MustCompile regex c
  | Registration.storage regex st => s.AddStorage MustCompile regex st

/-- Performing a sequence of registration calls in order. -/
def SimpleSpider.registerAll (MustCompile : String → Option Regexp) :
    SimpleSpider → List Registration → Option SimpleSpider
  | s, [] => some s
  | s, r :: rest =>
    match s.register MustCompile r with
    | none => none
    | some s1 => SimpleSpider.registerAll MustCompile s1 rest

/-- The parser registrations of a sequence, in registration order. -/
def parserEntries : List Registration → List (String × DocParser)
  | [] => []
  | Registration.docParser regex dp :: rest => (regex, dp) :: parserEntries rest
  | _ :: rest => parserEntries rest

/-- The crawler registrations of a sequence, in registration order. -/
def crawlerEntries : List Registration → List (String × Crawler)
  | [] => []
  | Registration.crawler regex c :: rest => (regex, c) :: crawlerEntries rest
  | _ :: rest => crawlerEntries rest

/-- The storage registrations of a sequence, in registration order. -/
def storageEntries : List Registration → List (String × Storage)
  | [] => []
  | Registration.storage regex st :: rest => (regex, st) :: storageEntries rest
  | _ :: rest => storageEntries rest

/-- Whether the pattern `regex`, once compiled, matches `urlStr`. -/
def patternMatches (MustCompile : String → Option Regexp) (urlStr : String) (regex : String) :
    Bool :=
  match MustCompile regex with
  | some re => re.MatchString urlStr
  | none => false

/-- Specification of first-match-wins: `a` is the capability of the earliest entry
whose pattern matches; entries registered later play no role. -/
def EarliestMatch {α : Type} (matchesUrl : String → Bool) (entries : List (String × α))
    (a : α) : Prop :=
  ∃ (i : Nat) (regex : String), entries[i]? = some (regex, a) ∧ matchesUrl regex = true ∧
    ∀ (j : Nat) (p : String) (b : α), j < i → entries[j]? = some (p, b) → matchesUrl p = false

/-- First entry flagged as matching, in list order. -/
def firstMatch {α : Type} : List (Bool × α) → Option α
  | [] => none
  | (true, a) :: _ => some a
  | (false, _) :: rest => firstMatch rest

/-- A stand-in for `regexp.MustCompile` that is exact on patterns `^literal` whose
literal consists of letters, digits and slashes, and declines every other pattern. -/
def anchoredLiteral (regex : String) : Option Regexp :=
  match regex.data with
  | '^' :: lit =>
    if lit.all (fun c => c.isAlphanum || c = '/') then
      some ⟨regex, fun urlStr => lit.isPrefixOf urlStr.data⟩
    else none
  | _ => none

/-- The registrations of the scenario: `^/a/` for parser A, then `^/` for parser B. -/
def scenarioRegs : List Registration :=
  [Registration.docParser "^/a/" ⟨"parserA"⟩, Registration.docParser "^/" ⟨"parserB"⟩]

/-! ### Concrete worlds and spiders used as examples -/

/-- A compiled pattern that matches every URL. -/
def anyUrl : Regexp := ⟨"", fun _ => true⟩

/-- A compiled pattern that matches no URL. -/
def noUrl : Regexp := ⟨"$^", fun _ => false⟩

/-- A spider whose only parser and only storage are registered for patterns that do
not match, with one crawler registered for a pattern that does not match either. -/
def idleSpider : SimpleSpider :=
  { client := ⟨"http.DefaultClient"⟩, parsers := [⟨noUrl, ⟨"parser"⟩⟩],
    storages := [⟨noUrl, ⟨"sqlite"⟩⟩], crawlers := [⟨noUrl, ⟨"login"⟩⟩], retrier := ⟨1, 10⟩ }

/-- A world in which every fetch fails with HTTP 500 and parsing and storing succeed. -/
def failingWorld : World :=
  { Get := fun _ _ _ => (none, some ⟨"HTTP 500"⟩),
    Crawl := fun _ _ _ _ => (none, some ⟨"HTTP 500"⟩),
    Parse := fun _ _ _ _ => none,
    AddDoc := fun _ _ _ => none }

/-- A world in which the first fetch of a worker fails and every later one succeeds;
the parser reports an error. -/
def flakyWorld : World :=
  { Get := fun tr _ _ =>
      if tr.length = 0 then (none, some ⟨"timeout"⟩) else (some ⟨200, "page"⟩, none),
    Crawl := fun tr _ _ _ =>
      if tr.length = 0 then (none, some ⟨"timeout"⟩) else (some ⟨200, "page"⟩, none),
    Parse := fun _ _ _ _ => some ⟨"bad payload"⟩,
    AddDoc := fun _ _ _ => none }

/-- A spider with one parser for every URL, no crawler, and the given retrier. -/
def plainSpider (r : SimpleRetrier) : SimpleSpider :=
  { client := ⟨"http.DefaultClient"⟩, parsers := [⟨anyUrl, ⟨"parser"⟩⟩], storages := [],
    crawlers := [], retrier := r }

/-! ### Retrier lemmas -/

theorem wrapInt_succ_of_lt (i : Int) (h0 : 0 ≤ i) (h1 : i < maxInt) : wrapInt (i + 1) = i + 1 := by
  unfold wrapInt maxInt at *
  omega

theorem wrapInt_le_maxInt (x : Int) : wrapInt x ≤ maxInt := by
  unfold wrapInt maxInt
  omega

theorem RunWithRetry_loop_eq_attemptN {σ : Type} (sleep : Int → σ → σ) (r : SimpleRetrier)
    (job : σ → error × σ) (hmax : r.Times < maxInt) :
    ∀ (n fuel : Nat) (i : Int) (err : error) (s : σ), 0 ≤ i → i + n = r.Times + 1 → n < fuel →
      RunWithRetry_loop sleep r job fuel i err s = some (attemptN sleep r.Interval job n err s) := by
  intro n
  induction n with
  | zero =>
    intro fuel i err s _ hin hf
    obtain ⟨f, rfl⟩ : ∃ f, fuel = f + 1 := ⟨fuel - 1, by omega⟩
    have : ¬ i ≤ r.Times := by omega
    simp [RunWithRetry_loop, attemptN, this]
  | succ n ih =>
    intro fuel i err s hi hin hf
    obtain ⟨f, rfl⟩ : ∃ f, fuel = f + 1 := ⟨fuel - 1, by omega⟩
    have hle : i ≤ r.Times := by omega
    have hw : wrapInt (i + 1) = i + 1 := wrapInt_succ_of_lt i hi (by omega)
    simp only [RunWithRetry_loop, attemptN, hle, if_true, hw]
    rcases hj : job s with ⟨e, s1⟩
    cases e with
    | none => rfl
    | some e =>
      simp only
      exact ih f (i + 1) (some e) (sleep r.Interval s1) (by omega) (by omega) (by omega)

theorem calls_append (l1 l2 : List RetryEvent) : calls (l1 ++ l2) = calls l1 + calls l2 := by
  induction l1 with
  | nil => simp [calls]
  | cons e l ih => cases e <;> simp [calls, ih]; omega

theorem sleeps_append (l1 l2 : List RetryEvent) :
    sleeps (l1 ++ l2) = sleeps l1 + sleeps l2 := by
  induction l1 with
  | nil => simp [sleeps]
  | cons e l ih => cases e <;> simp [sleeps, ih]; omega

theorem calls_failedFrom (outcomes : Nat → error) (iv : Int) :
    ∀ (n c : Nat), calls (failedFrom outcomes iv c n) = n := by
  intro n
  induction n with
  | zero => intro c; rfl
  | succ n ih => intro c; simp [failedFrom, calls, ih]

theorem sleeps_failedFrom (outcomes : Nat → error) (iv : Int) :
    ∀ (n c : Nat), sleeps (failedFrom outcomes iv c n) = n := by
  intro n
  induction n with
  | zero => intro c; rfl
  | succ n ih => intro c; simp [failedFrom, sleeps, ih]

/-- A run over an outcome sequence whose first success is attempt `c + j`. -/
theorem attemptN_seqJob_success (outcomes : Nat → error) (iv : Int) :
    ∀ (j n c : Nat) (err : error) (log : List RetryEvent), calls log = c → j < n →
      (∀ i, i < j → outcomes (c + i) ≠ none) → outcomes (c + j) = none →
      attemptN logSleep iv (seqJob outcomes) n err log
        = (none, log ++ failedFrom outcomes iv c j ++ [RetryEvent.call none]) := by
  intro j
  induction j with
  | zero =>
    intro n c err log hc hn _ hs
    obtain ⟨m, rfl⟩ : ∃ m, n = m + 1 := ⟨n - 1, by omega⟩
    have hs0 : outcomes (calls log) = none := by simpa [hc] using hs
    simp [attemptN, seqJob, hs0, failedFrom]
  | succ j ih =>
    intro n c err log hc hn hf hs
    obtain ⟨m, rfl⟩ : ∃ m, n = m + 1 := ⟨n - 1, by omega⟩
    have h0 : outcomes (calls log) ≠ none := by simpa [hc] using hf 0 (by omega)
    obtain ⟨e, he⟩ : ∃ e, outcomes (calls log) = some e := Option.ne_none_iff_exists'.mp h0
    have hc1 : calls (logSleep iv (log ++ [RetryEvent.call (some e)])) = c + 1 := by
      simp [logSleep, calls_append, calls, hc]
    have hrec := ih m (c + 1) (some e) (logSleep iv (log ++ [RetryEvent.call (some e)])) hc1
      (by omega) (fun i hi => by simpa [Nat.add_assoc, Nat.add_comm 1 i] using hf (i + 1) (by omega))
      (by simpa [Nat.add_assoc, Nat.add_comm 1 j] using hs)
    simp only [attemptN, seqJob, he]
    rw [hrec]
    simp [logSleep, failedFrom, hc ▸ he]

/-- A run over an outcome sequence in which the attempts `c`, ..., `c + n - 1` all fail. -/
theorem attemptN_seqJob_fail (outcomes : Nat → error) (iv : Int) :
    ∀ (n c : Nat) (err : error) (log : List RetryEvent), calls log = c →
      (∀ i, i < n → outcomes (c + i) ≠ none) →
      attemptN logSleep iv (seqJob outcomes) n err log
        = (if n = 0 then err else outcomes (c + n - 1), log ++ failedFrom outcomes iv c n) := by
  intro n
  induction n with
  | zero => intro c err log _ _; simp [attemptN, failedFrom]
  | succ n ih =>
    intro c err log hc hf
    have h0 : outcomes (calls log) ≠ none := by simpa [hc] using hf 0 (by omega)
    obtain ⟨e, he⟩ : ∃ e, outcomes (calls log) = some e := Option.ne_none_iff_exists'.mp h0
    have hc1 : calls (logSleep iv (log ++ [RetryEvent.call (some e)])) = c + 1 := by
      simp [logSleep, calls_append, calls, hc]
    have hrec := ih (c + 1) (some e) (logSleep iv (log ++ [RetryEvent.call (some e)])) hc1
      (fun i hi => by simpa [Nat.add_assoc, Nat.add_comm 1 i] using hf (i + 1) (by omega))
    simp only [attemptN, seqJob, he]
    rw [hrec]
    have hce : outcomes c = some e := hc ▸ he
    by_cases hn : n = 0
    · subst hn; simp [logSleep, failedFrom, hce]
    · have : c + 1 + n - 1 = c + (n + 1) - 1 := by omega
      simp [logSleep, failedFrom, hce, hn, this]

/-- With `Times = maxInt` every counter value passes the loop condition, so a job that
fails in every state is retried forever. -/
theorem RunWithRetry_loop_maxInt_diverges {σ : Type} (sleep : Int → σ → σ) (iv : Int)
    (job : σ → error × σ) (hjob : ∀ s, (job s).1 ≠ none) :
    ∀ (fuel : Nat) (i : Int) (err : error) (s : σ), i ≤ maxInt →
      RunWithRetry_loop sleep ⟨maxInt, iv⟩ job fuel i err s = none := by
  intro fuel
  induction fuel with
  | zero => intro i err s _; rfl
  | succ f ih =>
    intro i err s hi
    simp only [RunWithRetry_loop, hi, if_true]
    rcases hj : job s with ⟨e, s1⟩
    cases e with
    | none => exact absurd (by rw [hj]) (hjob s)
    | some e => exact ih _ _ _ (wrapInt_le_maxInt _)

/-- With a negative `Times` the loop body is never entered. -/
theorem RunWithRetry_neg {σ : Type} (sleep : Int → σ → σ) (r : SimpleRetrier)
    (job : σ → error × σ) (hneg : r.Times < 0) (fuel : Nat) (hfuel : 0 < fuel) (s : σ) :
    RunWithRetry sleep r job fuel s = some (none, s) := by
  obtain ⟨f, rfl⟩ : ∃ f, fuel = f + 1 := ⟨fuel - 1, by omega⟩
  have : ¬ (0 : Int) ≤ r.Times := by omega
  simp [RunWithRetry, RunWithRetry_loop, this]

/-- Postcondition of the loop: either no iteration was made, or the final state
satisfies every property that each job call establishes and each delay preserves. -/
theorem RunWithRetry_loop_post {σ : Type} (sleep : Int → σ → σ) (r : SimpleRetrier)
    (job : σ → error × σ) (Q P : σ → Prop) (hPQ : ∀ s, P s → Q s)
    (hjob : ∀ s, Q s → P (job s).2) (hsleep : ∀ d s, P s → P (sleep d s)) :
    ∀ (fuel : Nat) (i : Int) (err : error) (s : σ) (res : error × σ),
      RunWithRetry_loop sleep r job fuel i err s = some res → Q s →
      (¬ i ≤ r.Times ∧ res = (err, s)) ∨ P res.2 := by
  intro fuel
  induction fuel with
  | zero => intro i err s res h; simp [RunWithRetry_loop] at h
  | succ f ih =>
    intro i err s res h hQ
    by_cases hi : i ≤ r.Times
    · right
      simp only [RunWithRetry_loop, hi, if_true] at h
      have hP := hjob s hQ
      rcases hj : job s with ⟨e, s1⟩
      rw [hj] at h hP
      cases e with
      | none =>
        simp only [Option.some.injEq] at h
        subst h
        exact hP
      | some e =>
        simp only at h
        rcases ih _ _ _ _ h (hPQ _ (hsleep _ _ hP)) with ⟨_, hres⟩ | hres
        · rw [hres]; exact hsleep _ _ hP
        · exact hres
    · left
      simp only [RunWithRetry_loop, hi, if_false, Option.some.injEq] at h
      exact ⟨hi, h.symm⟩

/-- Whenever the counter cannot overflow, the loop returns once the fuel exceeds the
number of remaining iterations. -/
theorem RunWithRetry_returns {σ : Type} (sleep : Int → σ → σ) (r : SimpleRetrier)
    (job : σ → error × σ) (hmax : r.Times < maxInt) (fuel : Nat)
    (hfuel : (r.Times + 1).toNat < fuel) (s : σ) :
    RunWithRetry sleep r job fuel s
      = some (attemptN sleep r.Interval job (r.Times + 1).toNat none s) := by
  by_cases hneg : r.Times < 0
  · rw [RunWithRetry_neg sleep r job hneg fuel (by omega)]
    have : (r.Times + 1).toNat = 0 := by omega
    simp [this, attemptN]
  · exact RunWithRetry_loop_eq_attemptN sleep r job hmax _ fuel 0 none s (le_refl 0)
      (by omega) hfuel

/-- Delays of a run, for `Times = k` with `0 ≤ k < maxInt`: a run whose first attempt
succeeds makes no delay; a run in which the attempts `0, ..., k` all fail makes `k + 1`
delays, the last of them after the final attempt. -/
theorem RunWithRetry_delays (k : Nat) (iv : Int) (outcomes : Nat → error) (fuel : Nat)
    (hk : (k : Int) < maxInt) (hfuel : k + 1 < fuel) :
    (outcomes 0 = none →
      ∃ log, RunWithRetry logSleep ⟨k, iv⟩ (seqJob outcomes) fuel [] = some (none, log)
        ∧ sleeps log = 0) ∧
    ((∀ i, i ≤ k → outcomes i ≠ none) →
      ∃ log, RunWithRetry logSleep ⟨k, iv⟩ (seqJob outcomes) fuel [] = some (outcomes k, log)
        ∧ sleeps log = k + 1 ∧ log.getLast? = some (RetryEvent.sleep iv)) := by
  have hloop := RunWithRetry_loop_eq_attemptN logSleep ⟨k, iv⟩ (seqJob outcomes) hk (k + 1) fuel 0
    none [] (le_refl 0) (by push_cast; ring) hfuel
  refine ⟨fun hsucc => ?_, fun hfail => ?_⟩
  · have h := attemptN_seqJob_success outcomes iv 0 (k + 1) 0 none [] rfl (by omega)
      (fun i hi => absurd hi (by omega)) (by simpa using hsucc)
    exact ⟨[] ++ failedFrom outcomes iv 0 0 ++ [RetryEvent.call none],
      by rw [RunWithRetry, hloop, h], by simp [failedFrom, sleeps]⟩
  · have h := attemptN_seqJob_fail outcomes iv (k + 1) 0 none [] rfl
      (fun i hi => by simpa using hfail i (by omega))
    refine ⟨failedFrom outcomes iv 0 (k + 1), by rw [RunWithRetry, hloop, h]; simp,
      sleeps_failedFrom outcomes iv (k + 1) 0, ?_⟩
    have hlast : ∀ (n c : Nat),
        (failedFrom outcomes iv c (n + 1)).getLast? = some (RetryEvent.sleep iv) := by
      intro n
      induction n with
      | zero => intro c; rfl
      | succ n ih =>
        intro c
        have hrec := ih (c + 1)
        rw [failedFrom] at hrec
        rw [failedFrom, List.getLast?_cons_cons, failedFrom, List.getLast?_cons_cons]
        exact hrec
    exact hlast k 0

/-! ### Lemmas about `crawl` -/

theorem lastFetch_append_fetchEvent (w : World) (s : SimpleSpider) (f : Fetcher)
    (urlStr : String) (tr evs : List Event) :
    lastFetch (evs ++ [SimpleSpider.fetchEvent w s f urlStr tr])
      = SimpleSpider.fetchResult w s f urlStr tr := by
  cases f <;> simp [lastFetch, SimpleSpider.fetchEvent, SimpleSpider.fetchResult]

theorem lastFetch_append_sleep (d : Int) (evs : List Event) :
    lastFetch (evs ++ [Event.sleep d]) = lastFetch evs := by
  simp [lastFetch]

theorem isFetchBy_fetchEvent (w : World) (s : SimpleSpider) (f : Fetcher) (urlStr : String)
    (tr : List Event) : (SimpleSpider.fetchEvent w s f urlStr tr).isFetchBy s f urlStr := by
  cases f <;> simp [SimpleSpider.fetchEvent, Event.isFetchBy]

/-- Whatever `crawl` returns, it only added delays and calls of the selected fetcher
to the trace, and its results are those of the last such call. -/
theorem crawl_trace (w : World) (s : SimpleSpider) (urlStr : String) (tr : List Event)
    (fuel : Nat) (res : Option Response × error) (tr1 : List Event)
    (h : s.crawl fuel w urlStr tr = some (res, tr1)) :
    ∃ evs, tr1 = tr ++ evs ∧
      (∀ e, e ∈ evs → e.isSleep ∨
        e.isFetchBy s (SimpleSpider.crawl_select s.crawlers urlStr) urlStr) ∧
      res = lastFetch evs := by
  simp only [SimpleSpider.crawl, RunWithRetry] at h
  rcases hrun : RunWithRetry_loop SimpleSpider.crawl_sleep s.retrier
      (SimpleSpider.crawl_job w s (SimpleSpider.crawl_select s.crawlers urlStr) urlStr) fuel 0
      none { trace := tr, resp := none, err := none } with _ | ⟨e, v⟩
  · rw [hrun] at h; simp at h
  · rw [hrun] at h
    simp only [Option.some.injEq, Prod.mk.injEq] at h
    obtain ⟨hres, htr⟩ := h
    let P : CrawlVars → Prop := fun v => ∃ evs, v.trace = tr ++ evs ∧
      (∀ e, e ∈ evs → e.isSleep ∨
        e.isFetchBy s (SimpleSpider.crawl_select s.crawlers urlStr) urlStr) ∧
      (v.resp, v.err) = lastFetch evs
    have hpost := RunWithRetry_loop_post SimpleSpider.crawl_sleep s.retrier
      (SimpleSpider.crawl_job w s (SimpleSpider.crawl_select s.crawlers urlStr) urlStr) P P
      (fun _ hp => hp)
      (fun v ⟨evs, ht, hall, _⟩ =>
        ⟨evs ++ [SimpleSpider.fetchEvent w s (SimpleSpider.crawl_select s.crawlers urlStr)
            urlStr v.trace],
          by simp [SimpleSpider.crawl_job, ht],
          fun e he => by
            rcases List.mem_append.mp he with he | he
            · exact hall e he
            · rw [List.mem_singleton.mp he]
              exact Or.inr (isFetchBy_fetchEvent w s _ urlStr v.trace),
          by rw [lastFetch_append_fetchEvent]; rfl⟩)
      (fun d v ⟨evs, ht, hall, hl⟩ =>
        ⟨evs ++ [Event.sleep d],
          by simp [SimpleSpider.crawl_sleep, ht],
          fun e he => by
            rcases List.mem_append.mp he with he | he
            · exact hall e he
            · rw [List.mem_singleton.mp he]
              exact Or.inl trivial,
          by rw [lastFetch_append_sleep]; exact hl⟩)
      fuel 0 none { trace := tr, resp := none, err := none } (e, v) hrun
      ⟨[], by simp, by simp, rfl⟩
    rcases hpost with ⟨_, hv⟩ | ⟨evs, ht, hall, hl⟩
    · simp only [Prod.mk.injEq] at hv
      refine ⟨[], ?_, by simp, ?_⟩
      · rw [← htr, hv.2]; simp
      · rw [← hres, hv.2]; rfl
    · exact ⟨evs, by rw [← htr]; exact ht, hall, by rw [← hres]; exact hl⟩

/-- With `Times ≥ 0` and well-behaved fetch capabilities, whatever `crawl` returns
comes after at least one fetch attempt and is not a nil response with a nil error. -/
theorem crawl_nonneg (w : World) (hw : w.WellBehaved) (s : SimpleSpider) (urlStr : String)
    (tr : List Event) (h0 : 0 ≤ s.retrier.Times)
    (fuel : Nat) (res : Option Response × error) (tr1 : List Event)
    (h : s.crawl fuel w urlStr tr = some (res, tr1)) :
    (∃ evs, tr1 = tr ++ s.attemptEvent w urlStr tr 0 :: evs) ∧ (res.2 = none → res.1 ≠ none) := by
  simp only [SimpleSpider.crawl, RunWithRetry] at h
  rcases hrun : RunWithRetry_loop SimpleSpider.crawl_sleep s.retrier
      (SimpleSpider.crawl_job w s (SimpleSpider.crawl_select s.crawlers urlStr) urlStr) fuel 0
      none { trace := tr, resp := none, err := none } with _ | ⟨e, v⟩
  · rw [hrun] at h; simp at h
  · rw [hrun] at h
    simp only [Option.some.injEq, Prod.mk.injEq] at h
    obtain ⟨hres, htr⟩ := h
    let P : CrawlVars → Prop := fun v =>
      (∃ evs, v.trace = tr ++ s.attemptEvent w urlStr tr 0 :: evs) ∧ (v.err = none → v.resp ≠ none)
    let Q : CrawlVars → Prop := fun v => v.trace = tr ∨ P v
    have hwb : ∀ t, (SimpleSpider.fetchResult w s
        (SimpleSpider.crawl_select s.crawlers urlStr) urlStr t).2 = none →
        (SimpleSpider.fetchResult w s
        (SimpleSpider.crawl_select s.crawlers urlStr) urlStr t).1 ≠ none := by
      intro t
      cases hf : SimpleSpider.crawl_select s.crawlers urlStr with
      | clientGet => exact hw.1 t s.client urlStr
      | viaCrawler c => exact hw.2 t c s.client urlStr
    have hpost := RunWithRetry_loop_post SimpleSpider.crawl_sleep s.retrier
      (SimpleSpider.crawl_job w s (SimpleSpider.crawl_select s.crawlers urlStr) urlStr) Q P
      (fun _ hp => Or.inr hp)
      (fun v hq => by
        refine ⟨?_, hwb v.trace⟩
        rcases hq with ht | ⟨⟨evs, ht⟩, _⟩
        · exact ⟨[], by
            simp [SimpleSpider.crawl_job, ht, SimpleSpider.attemptEvent,
              SimpleSpider.afterFailed, SimpleSpider.failedAttempts]⟩
        · exact ⟨evs ++ [SimpleSpider.fetchEvent w s
            (SimpleSpider.crawl_select s.crawlers urlStr) urlStr v.trace], by
            simp [SimpleSpider.crawl_job, ht]⟩)
      (fun d v ⟨⟨evs, ht⟩, hr⟩ =>
        ⟨⟨evs ++ [Event.sleep d], by simp [SimpleSpider.crawl_sleep, ht]⟩, hr⟩)
      fuel 0 none { trace := tr, resp := none, err := none } (e, v) hrun (Or.inl rfl)
    rcases hpost with ⟨hneg, _⟩ | ⟨⟨evs, ht⟩, hr⟩
    · exact absurd h0 hneg
    · exact ⟨⟨evs, by rw [← htr]; exact ht⟩, by rw [← hres]; exact hr⟩

/-- The processing of a URL calls no parser but the one `docParser` returned. -/
theorem crawlLoop_body_parse_events (w : World) (s : SimpleSpider) (urlStr : String)
    (tr : List Event) (dp : DocParser) (hdp : s.docParser urlStr = some dp) (fuel : Nat)
    (out : Outcome) (hb : s.crawlLoop_body fuel w urlStr tr = some out) :
    ∃ evs, out.trace = tr ++ evs ∧
      ∀ dp1 u resp err, Event.parse dp1 u resp err ∈ evs → dp1 = dp := by
  simp only [SimpleSpider.crawlLoop_body, hdp] at hb
  rcases hc : s.crawl fuel w urlStr tr with _ | ⟨⟨resp, err⟩, tr1⟩
  · rw [hc] at hb; simp at hb
  · rw [hc] at hb
    obtain ⟨evs, htr, hall, _⟩ := crawl_trace w s urlStr tr fuel (resp, err) tr1 hc
    have hno : ∀ dp1 u r e, Event.parse dp1 u r e ∈ evs → dp1 = dp := by
      intro dp1 u r e hmem
      rcases hall _ hmem with h | h
      · simp [Event.isSleep] at h
      · simp [Event.isFetchBy] at h
    subst htr
    cases err with
    | some e =>
      simp only [Option.some.injEq] at hb
      subst hb
      refine ⟨evs ++ [Event.parse dp urlStr none (w.Parse (tr ++ evs) dp urlStr none)],
        by simp, fun dp1 u r e1 hmem => ?_⟩
      rcases List.mem_append.mp hmem with h | h
      · exact hno dp1 u r e1 h
      · simp only [List.mem_singleton, Event.parse.injEq] at h
        exact h.1
    | none =>
      cases resp with
      | none =>
        simp only [Option.some.injEq] at hb
        subst hb
        refine ⟨evs ++ [Event.parse dp urlStr none (w.Parse (tr ++ evs) dp urlStr none)],
          by simp, fun dp1 u r e1 hmem => ?_⟩
        rcases List.mem_append.mp hmem with h | h
        · exact hno dp1 u r e1 h
        · simp only [List.mem_singleton, Event.parse.injEq] at h
          exact h.1
      | some r0 =>
        simp only [Option.some.injEq] at hb
        subst hb
        refine ⟨evs ++ [Event.parse dp urlStr (some r0)
            (w.Parse (tr ++ evs) dp urlStr (some r0)), Event.close r0],
          by simp, fun dp1 u r e1 hmem => ?_⟩
        rcases List.mem_append.mp hmem with h | h
        · exact hno dp1 u r e1 h
        · simp only [List.mem_cons, Event.parse.injEq, List.mem_singleton, reduceCtorEq,
            or_false, List.not_mem_nil] at h
          exact h.1

/-- With `Times ≥ 0`, whatever `crawl` returns is the result of a fetch attempt that is
followed in the trace by nothing but delays: the last attempt. -/
theorem crawl_last_attempt (w : World) (s : SimpleSpider) (urlStr : String)
    (tr : List Event) (h0 : 0 ≤ s.retrier.Times)
    (fuel : Nat) (res : Option Response × error) (tr1 : List Event)
    (h : s.crawl fuel w urlStr tr = some (res, tr1)) :
    ∃ pre e post, tr1 = tr ++ pre ++ e :: post ∧
      e.isFetchBy s (SimpleSpider.crawl_select s.crawlers urlStr) urlStr ∧
      (∀ x, x ∈ post → x.isSleep) ∧ res = lastFetch [e] := by
  simp only [SimpleSpider.crawl, RunWithRetry] at h
  rcases hrun : RunWithRetry_loop SimpleSpider.crawl_sleep s.retrier
      (SimpleSpider.crawl_job w s (SimpleSpider.crawl_select s.crawlers urlStr) urlStr) fuel 0
      none { trace := tr, resp := none, err := none } with _ | ⟨e, v⟩
  · rw [hrun] at h; simp at h
  · rw [hrun] at h
    simp only [Option.some.injEq, Prod.mk.injEq] at h
    obtain ⟨hres, htr⟩ := h
    let P : CrawlVars → Prop := fun v => ∃ pre e post, v.trace = tr ++ pre ++ e :: post ∧
      e.isFetchBy s (SimpleSpider.crawl_select s.crawlers urlStr) urlStr ∧
      (∀ x, x ∈ post → x.isSleep) ∧ (v.resp, v.err) = lastFetch [e]
    let Q : CrawlVars → Prop := fun v => ∃ evs, v.trace = tr ++ evs
    have hpost := RunWithRetry_loop_post SimpleSpider.crawl_sleep s.retrier
      (SimpleSpider.crawl_job w s (SimpleSpider.crawl_select s.crawlers urlStr) urlStr) Q P
      (fun v ⟨pre, e, post, ht, _, _, _⟩ => ⟨pre ++ e :: post, by rw [ht, List.append_assoc]⟩)
      (fun v ⟨evs, ht⟩ =>
        ⟨evs, SimpleSpider.fetchEvent w s (SimpleSpider.crawl_select s.crawlers urlStr)
            urlStr v.trace, [],
          by simp [SimpleSpider.crawl_job, ht],
          isFetchBy_fetchEvent w s _ urlStr v.trace,
          by simp,
          by
            have hl := lastFetch_append_fetchEvent w s
              (SimpleSpider.crawl_select s.crawlers urlStr) urlStr v.trace []
            rw [List.nil_append] at hl
            rw [hl]
            rfl⟩)
      (fun d v ⟨pre, e, post, ht, hf, hs, hl⟩ =>
        ⟨pre, e, post ++ [Event.sleep d],
          by simp [SimpleSpider.crawl_sleep, ht],
          hf,
          fun x hx => by
            rcases List.mem_append.mp hx with hx | hx
            · exact hs x hx
            · rw [List.mem_singleton.mp hx]
              trivial,
          hl⟩)
      fuel 0 none { trace := tr, resp := none, err := none } (e, v) hrun ⟨[], by simp⟩
    rcases hpost with ⟨hneg, _⟩ | ⟨pre, e1, post, ht, hf, hs, hl⟩
    · exact absurd h0 hneg
    · exact ⟨pre, e1, post, by rw [← htr]; exact ht, hf, hs, by rw [← hres]; exact hl⟩

/-- With `Times < 0` the call of `crawl` makes no fetch attempt and returns nil, nil. -/
theorem crawl_neg (w : World) (s : SimpleSpider) (urlStr : String) (tr : List Event)
    (hneg : s.retrier.Times < 0) (fuel : Nat) (hfuel : 0 < fuel) :
    s.crawl fuel w urlStr tr = some ((none, none), tr) := by
  simp only [SimpleSpider.crawl]
  rw [RunWithRetry_neg SimpleSpider.crawl_sleep s.retrier _ hneg fuel hfuel]

theorem crawl_select_none (crawlers : List crawlerSpec) (urlStr : String)
    (h : ∀ spec, spec ∈ crawlers → spec.regex.MatchString urlStr = false) :
    SimpleSpider.crawl_select crawlers urlStr = Fetcher.clientGet := by
  induction crawlers with
  | nil => rfl
  | cons spec rest ih =>
    have h1 := h spec (List.mem_cons_self _ _)
    simp only [SimpleSpider.crawl_select, h1]
    exact ih (fun sp hsp => h sp (List.mem_cons_of_mem _ hsp))

theorem docParser_loop_none (parsers : List docParserSpec) (urlStr : String)
    (h : ∀ spec, spec ∈ parsers → spec.regex.MatchString urlStr = false) :
    SimpleSpider.docParser_loop parsers urlStr = none := by
  induction parsers with
  | nil => rfl
  | cons spec rest ih =>
    have h1 := h spec (List.mem_cons_self _ _)
    simp only [SimpleSpider.docParser_loop, h1]
    exact ih (fun sp hsp => h sp (List.mem_cons_of_mem _ hsp))

/-! ### Lemmas about the registries -/

theorem firstMatch_of_earliest {α : Type} (m : String → Bool) :
    ∀ (entries : List (String × α)) (a : α), EarliestMatch m entries a →
      firstMatch (entries.map (fun e => (m e.1, e.2))) = some a := by
  intro entries
  induction entries with
  | nil =>
    rintro a ⟨i, regex, hi, _, _⟩
    simp at hi
  | cons e rest ih =>
    rintro a ⟨i, regex, hi, hm, hbefore⟩
    cases i with
    | zero =>
      simp only [List.getElem?_cons_zero, Option.some.injEq] at hi
      subst hi
      simp [firstMatch, hm]
    | succ i =>
      have h0 : m e.1 = false := hbefore 0 e.1 e.2 (by omega) (by simp)
      simp only [List.map_cons, h0, firstMatch]
      refine ih a ⟨i, regex, by simpa using hi, hm, fun j p b hj hjp => ?_⟩
      exact hbefore (j + 1) p b (by omega) (by simpa using hjp)

theorem docParser_loop_eq_firstMatch (urlStr : String) :
    ∀ parsers : List docParserSpec, SimpleSpider.docParser_loop parsers urlStr
      = firstMatch (parsers.map (fun sp => (sp.regex.MatchString urlStr, sp.dp))) := by
  intro parsers
  induction parsers with
  | nil => rfl
  | cons sp rest ih =>
    cases hm : sp.regex.MatchString urlStr <;>
      simp [SimpleSpider.docParser_loop, firstMatch, hm, ih]

theorem crawl_select_eq_firstMatch (urlStr : String) :
    ∀ crawlers : List crawlerSpec, SimpleSpider.crawl_select crawlers urlStr
      = match firstMatch (crawlers.map (fun sp => (sp.regex.MatchString urlStr, sp.c))) with
        | some c => Fetcher.viaCrawler c
        | none => Fetcher.clientGet := by
  intro crawlers
  induction crawlers with
  | nil => rfl
  | cons sp rest ih =>
    cases hm : sp.regex.MatchString urlStr <;>
      simp [SimpleSpider.crawl_select, firstMatch, hm, ih]

theorem AddDoc_loop_eq_firstMatch (w : World) (urlStr : String) (doc : Doc) (tr : List Event) :
    ∀ storages : List storageSpec, SimpleSpider.AddDoc_loop w storages urlStr doc tr
      = match firstMatch (storages.map (fun sp => (sp.regex.MatchString urlStr, sp.s))) with
        | some st => (w.AddDoc tr st doc, tr ++ [Event.addDoc st doc (w.AddDoc tr st doc)])
        | none => (some ⟨"no storage specified for '" ++ urlStr ++ "'"⟩, tr) := by
  intro storages
  induction storages with
  | nil => rfl
  | cons sp rest ih =>
    cases hm : sp.regex.MatchString urlStr <;>
      simp [SimpleSpider.AddDoc_loop, firstMatch, hm, ih]

/-- The registries after a sequence of registrations hold, in order, the earlier
entries followed by the compiled registrations of each kind. -/
theorem registerAll_registries (MustCompile : String → Option Regexp) (urlStr : String) :
    ∀ (regs : List Registration) (s0 s : SimpleSpider),
      SimpleSpider.registerAll MustCompile s0 regs = some s →
      s.client = s0.client ∧
      s.parsers.map (fun sp => (sp.regex.MatchString urlStr, sp.dp))
        = s0.parsers.map (fun sp => (sp.regex.MatchString urlStr, sp.dp))
          ++ (parserEntries regs).map (fun e => (patternMatches MustCompile urlStr e.1, e.2)) ∧
      s.crawlers.map (fun sp => (sp.regex.MatchString urlStr, sp.c))
        = s0.crawlers.map (fun sp => (sp.regex.MatchString urlStr, sp.c))
          ++ (crawlerEntries regs).map (fun e => (patternMatches MustCompile urlStr e.1, e.2)) ∧
      s.storages.map (fun sp => (sp.regex.MatchString urlStr, sp.s))
        = s0.storages.map (fun sp => (sp.regex.MatchString urlStr, sp.s))
          ++ (storageEntries regs).map (fun e => (patternMatches MustCompile urlStr e.1, e.2)) := by
  intro regs
  induction regs with
  | nil =>
    intro s0 s h
    simp only [SimpleSpider.registerAll, Option.some.injEq] at h
    subst h
    simp [parserEntries, crawlerEntries, storageEntries]
  | cons r rest ih =>
    intro s0 s h
    simp only [SimpleSpider.registerAll] at h
    cases r with
    | docParser regex dp =>
      simp only [SimpleSpider.register, SimpleSpider.AddDocParser] at h
      cases hc : MustCompile regex with
      | none => rw [hc] at h; simp at h
      | some re =>
        rw [hc] at h
        obtain ⟨h1, h2, h3, h4⟩ := ih _ s h
        refine ⟨h1, ?_, h3, h4⟩
        rw [h2]
        simp [parserEntries, patternMatches, hc]
    | crawler regex c =>
      simp only [SimpleSpider.register, SimpleSpider.AddCrawler] at h
      cases hc : MustCompile regex with
      | none => rw [hc] at h; simp at h
      | some re =>
        rw [hc] at h
        obtain ⟨h1, h2, h3, h4⟩ := ih _ s h
        refine ⟨h1, h2, ?_, h4⟩
        rw [h3]
        simp [crawlerEntries, patternMatches, hc]
    | storage regex st =>
      simp only [SimpleSpider.register, SimpleSpider.AddStorage] at h
      cases hc : MustCompile regex with
      | none => rw [hc] at h; simp at h
      | some re =>
        rw [hc] at h
        obtain ⟨h1, h2, h3, h4⟩ := ih _ s h
        refine ⟨h1, h2, h3, ?_⟩
        rw [h4]
        simp [storageEntries, patternMatches, hc]

/-! ### Lemmas about strings and the SQL storage -/

theorem foldl_append_eq (l : List String) :
    ∀ acc : String, l.foldl (fun r s => r ++ s) acc = acc ++ String.join l := by
  induction l with
  | nil => intro acc; simp [String.join]
  | cons a l ih =>
    intro acc
    have hj : String.join (a :: l) = a ++ String.join l := by
      show List.foldl (fun r s => r ++ s) "" (a :: l) = a ++ String.join l
      rw [List.foldl_cons, ih, String.empty_append]
    rw [List.foldl_cons, ih, hj, String.append_assoc]

theorem join_cons (a : String) (l : List String) : String.join (a :: l) = a ++ String.join l := by
  rw [String.join, List.foldl_cons, foldl_append_eq, String.empty_append]

theorem intercalate_go_eq (sep : String) (l : List String) :
    ∀ acc : String, String.intercalate.go acc sep l
      = acc ++ String.join (l.map (fun a => sep ++ a)) := by
  induction l with
  | nil => intro acc; simp [String.intercalate.go, String.join]
  | cons a l ih =>
    intro acc
    rw [String.intercalate.go, ih, List.map_cons, join_cons]
    simp only [String.append_assoc]

theorem intercalate_cons (sep a : String) (l : List String) :
    sep.intercalate (a :: l) = a ++ String.join (l.map (fun b => sep ++ b)) := by
  rw [String.intercalate, intercalate_go_eq]

/-- The placeholder list built by `insert` for `n + 1` arguments. -/
theorem marks_eq (n : Nat) :
    String.join (List.replicate n "?, ") ++ "?" = ", ".intercalate (List.replicate (n + 1) "?") := by
  rw [List.replicate_succ, intercalate_cons]
  induction n with
  | zero => rfl
  | succ n ih =>
    rw [List.replicate_succ, join_cons, String.append_assoc, ih, List.replicate_succ,
      List.map_cons, join_cons]
    apply String.ext
    simp

theorem insert_loop_rest (entries : List (String × Value)) :
    ∀ (buf : String) (args : List Value),
      SqlStorage.insert_loop entries buf args false
        = (buf ++ String.join (entries.map (fun e => ", " ++ e.1)),
           args ++ entries.map Prod.snd) := by
  induction entries with
  | nil => intro buf args; simp [SqlStorage.insert_loop, String.join]
  | cons e rest ih =>
    intro buf args
    obtain ⟨name, value⟩ := e
    simp only [SqlStorage.insert_loop, Bool.false_eq_true, if_false]
    rw [ih, List.map_cons, join_cons]
    simp [String.append_assoc]

theorem insert_loop_first (e : String × Value) (rest : List (String × Value)) (buf : String) :
    SqlStorage.insert_loop (e :: rest) buf [] true
      = (buf ++ ", ".intercalate ((e :: rest).map Prod.fst), (e :: rest).map Prod.snd) := by
  obtain ⟨name, value⟩ := e
  simp only [SqlStorage.insert_loop, if_true]
  rw [insert_loop_rest, List.map_cons, intercalate_cons, List.map_map]
  simp [String.append_assoc, Function.comp_def]

theorem mapSet_new (m : List (String × Value)) (k : String) (v : Value)
    (h : k ∉ m.map Prod.fst) : mapSet m k v = m ++ [(k, v)] := by
  induction m with
  | nil => rfl
  | cons e m ih =>
    obtain ⟨k1, v1⟩ := e
    simp only [List.map_cons, List.mem_cons, not_or] at h
    have hne : ¬ k1 = k := fun heq => h.1 heq.symm
    simp [mapSet, hne, ih h.2]

/-- The field loop of `AddDoc` on a record whose `table` fields are strings and whose
column fields are exported returns the table name and the column map of the record. -/
theorem AddDoc_loop_eq :
    ∀ (fields : List StructField) (table : String) (m : List (String × Value)),
      (∀ sf, sf ∈ fields → sf.sqlTag = SQL_STRUCT_TAG_TABLE → ∃ t, sf.value = Value.str t) →
      (∀ sf, sf ∈ columnFields fields → sf.exported = true) →
      SqlStorage.AddDoc_loop fields table m
        = Except.ok (tableName fields table, columnMapFrom m fields) := by
  intro fields
  induction fields with
  | nil =>
    intro table m _ _
    simp [SqlStorage.AddDoc_loop, tableName, columnMapFrom, columnFields]
  | cons sf rest ih =>
    intro table m hT hexp
    have hTrest : ∀ sf1, sf1 ∈ rest → sf1.sqlTag = SQL_STRUCT_TAG_TABLE →
        ∃ t, sf1.value = Value.str t := fun sf1 h1 => hT sf1 (List.mem_cons_of_mem _ h1)
    by_cases htab : sf.sqlTag = SQL_STRUCT_TAG_TABLE
    · obtain ⟨t0, hv⟩ := hT sf (List.mem_cons_self _ _) htab
      have hcf : columnFields (sf :: rest) = columnFields rest := by
        simp [columnFields, htab]
      rw [hcf] at hexp
      simp only [SqlStorage.AddDoc_loop, htab, if_true, hv, tableName, columnMapFrom, hcf]
      exact ih t0 m hTrest hexp
    · by_cases hemp : sf.sqlTag = ""
      · have hcf : columnFields (sf :: rest) = columnFields rest := by
          simp [columnFields, hemp]
        rw [hcf] at hexp
        simp only [SqlStorage.AddDoc_loop, htab, if_false, hemp, if_true, tableName,
          columnMapFrom, hcf]
        exact ih table m hTrest hexp
      · have hcf : columnFields (sf :: rest) = sf :: columnFields rest := by
          simp [columnFields, htab, hemp]
        rw [hcf] at hexp
        have hsf : sf.exported = true := hexp sf (List.mem_cons_self _ _)
        simp only [SqlStorage.AddDoc_loop, htab, if_false, hemp, hsf, if_true, tableName,
          columnMapFrom, hcf, List.foldl_cons]
        exact ih table (mapSet m sf.sqlTag sf.value) hTrest
          (fun sf1 h1 => hexp sf1 (List.mem_cons_of_mem _ h1))

theorem tableName_of_no_table :
    ∀ (fields : List StructField) (table : String),
      (∀ sf, sf ∈ fields → sf.sqlTag ≠ SQL_STRUCT_TAG_TABLE) → tableName fields table = table := by
  intro fields
  induction fields with
  | nil => intro table _; rfl
  | cons sf rest ih =>
    intro table h
    have hsf := h sf (List.mem_cons_self _ _)
    simp only [tableName, hsf, if_false]
    exact ih table (fun sf1 h1 => h sf1 (List.mem_cons_of_mem _ h1))

/-- When every `table` field of the record holds the string `T` and there is one, the
table name of the record is `T`. -/
theorem tableName_eq (T : String) :
    ∀ (fields : List StructField) (table : String),
      (∀ sf, sf ∈ fields → sf.sqlTag = SQL_STRUCT_TAG_TABLE → sf.value = Value.str T) →
      (∃ sf, sf ∈ fields ∧ sf.sqlTag = SQL_STRUCT_TAG_TABLE) → tableName fields table = T := by
  intro fields
  induction fields with
  | nil =>
    rintro table _ ⟨sf, hsf, _⟩
    simp at hsf
  | cons sf rest ih =>
    intro table hT hex
    have hTrest : ∀ sf1, sf1 ∈ rest → sf1.sqlTag = SQL_STRUCT_TAG_TABLE →
        sf1.value = Value.str T := fun sf1 h1 => hT sf1 (List.mem_cons_of_mem _ h1)
    by_cases htab : sf.sqlTag = SQL_STRUCT_TAG_TABLE
    · have hv := hT sf (List.mem_cons_self _ _) htab
      simp only [tableName, htab, if_true, hv]
      by_cases hrest : ∃ sf1, sf1 ∈ rest ∧ sf1.sqlTag = SQL_STRUCT_TAG_TABLE
      · exact ih T hTrest hrest
      · exact tableName_of_no_table rest T (fun sf1 h1 heq => hrest ⟨sf1, h1, heq⟩)
    · simp only [tableName, htab, if_false]
      obtain ⟨sf1, h1, heq⟩ := hex
      rcases List.mem_cons.mp h1 with h1 | h1
      · exact absurd (h1 ▸ heq) htab
      · exact ih table hTrest ⟨sf1, h1, heq⟩

/-- Map assignments with new, pairwise distinct keys append their entries in order. -/
theorem foldl_mapSet_nodup :
    ∀ (cols : List StructField) (m : List (String × Value)),
      (m.map Prod.fst ++ cols.map (fun sf => sf.sqlTag)).Nodup →
      cols.foldl (fun acc sf => mapSet acc sf.sqlTag sf.value) m
        = m ++ cols.map (fun sf => (sf.sqlTag, sf.value)) := by
  intro cols
  induction cols with
  | nil => intro m _; simp
  | cons sf rest ih =>
    intro m hnd
    have hnew : sf.sqlTag ∉ m.map Prod.fst := by
      intro hmem
      have := List.nodup_append.mp hnd
      exact this.2.2 hmem (by simp)
    have hnd1 : ((m ++ [(sf.sqlTag, sf.value)]).map Prod.fst
        ++ rest.map (fun sf => sf.sqlTag)).Nodup := by
      simpa [List.map_append, List.append_assoc] using hnd
    rw [List.foldl_cons, mapSet_new m _ _ hnew, ih _ hnd1]
    simp

/-- The arguments collected by the loop of `insert`: one per entry visited. -/
theorem insert_loop_args (entries : List (String × Value)) :
    ∀ (buf : String) (args : List Value) (first : Bool),
      (SqlStorage.insert_loop entries buf args first).2 = args ++ entries.map Prod.snd := by
  induction entries with
  | nil => intro buf args first; simp [SqlStorage.insert_loop]
  | cons e rest ih =>
    intro buf args first
    obtain ⟨name, value⟩ := e
    cases first <;> simp [SqlStorage.insert_loop, ih]

/-- C1 (amended): for `Times = k` with `0 ≤ k < maxInt` and a job given by its sequence of
attempt outcomes, `RunWithRetry` returns (any fuel above `k + 1` suffices) and
* if attempt `j ≤ k` (counting from 0) is the first to succeed, it returns nil after
  exactly `j + 1` invocations of the job;
* if the attempts `0, ..., k` all fail, it returns the error of the last of them after
  exactly `k + 1` invocations.
With `k = 0` both cases give exactly one invocation. -/
theorem RunWithRetry_attempt_count (k : Nat) (iv : Int) (outcomes : Nat → error) (fuel : Nat)
    (hk : (k : Int) < maxInt) (hfuel : k + 1 < fuel) :
    (∀ j, j ≤ k → (∀ i, i < j → outcomes i ≠ none) → outcomes j = none →
      ∃ log, RunWithRetry logSleep ⟨k, iv⟩ (seqJob outcomes) fuel [] = some (none, log)
        ∧ calls log = j + 1) ∧
    ((∀ i, i ≤ k → outcomes i ≠ none) →
      ∃ log, RunWithRetry logSleep ⟨k, iv⟩ (seqJob outcomes) fuel [] = some (outcomes k, log)
        ∧ calls log = k + 1) := by
  have hloop := RunWithRetry_loop_eq_attemptN logSleep ⟨k, iv⟩ (seqJob outcomes) hk (k + 1) fuel 0
    none [] (le_refl 0) (by push_cast; ring) hfuel
  refine ⟨fun j hj hfail hsucc => ?_, fun hfail => ?_⟩
  · have h := attemptN_seqJob_success outcomes iv j (k + 1) 0 none [] rfl (by omega)
      (fun i hi => by simpa using hfail i hi) (by simpa using hsucc)
    refine ⟨[] ++ failedFrom outcomes iv 0 j ++ [RetryEvent.call none],
      by rw [RunWithRetry, hloop, h], ?_⟩
    simp [calls_append, calls_failedFrom, calls]
  · have h := attemptN_seqJob_fail outcomes iv (k + 1) 0 none [] rfl
      (fun i hi => by simpa using hfail i (by omega))
    refine ⟨failedFrom outcomes iv 0 (k + 1), by rw [RunWithRetry, hloop, h]; simp, ?_⟩
    simp [calls_failedFrom]

/-- C1, witness: `Times = 2` with a job succeeding on its second attempt makes two
invocations and returns nil; `Times = 0` with a failing job makes one invocation. -/
theorem RunWithRetry_attempt_count_witness :
    (∃ log, RunWithRetry logSleep ⟨2, 10⟩ (seqJob secondSucceeds) 4 [] = some (none, log)
      ∧ calls log = 2) ∧
    (∃ log, RunWithRetry logSleep ⟨0, 10⟩ (seqJob alwaysFail) 2 [] = some (alwaysFail 0, log)
      ∧ calls log = 1) :=
  ⟨(RunWithRetry_attempt_count 2 10 secondSucceeds 4 (by decide) (by decide)).1 1 (by decide)
      (fun i hi => by interval_cases i; decide) rfl,
    (RunWithRetry_attempt_count 0 10 alwaysFail 2 (by decide) (by decide)).2
      (fun i _ => by simp [alwaysFail])⟩

/-- C1, counterexample: with `Times = maxInt` the counter wraps around to `minInt` after
the attempt number `maxInt + 1`, the loop condition still holds, and a job that always
fails is invoked again and again: the call never returns, whatever the fuel. -/
theorem RunWithRetry_maxInt_never_returns :
    wrapInt (maxInt + 1) = minInt ∧ minInt ≤ maxInt ∧
    ∀ fuel : Nat, RunWithRetry logSleep ⟨maxInt, 0⟩ (seqJob alwaysFail) fuel [] = none :=
  ⟨by decide, by decide,
    fun fuel => RunWithRetry_loop_maxInt_diverges logSleep 0 (seqJob alwaysFail)
      (fun log => by simp [seqJob, alwaysFail]) fuel 0 none [] (by decide)⟩

/-- C7: the code sleeps after every failed attempt, the last one included.  With
`Times = 0` and a job that always fails there is one attempt followed by one delay; with
`Times = 2` there are three attempts and three delays. -/
theorem RunWithRetry_sleeps_after_last_failure :
    RunWithRetry logSleep ⟨0, 10⟩ (seqJob alwaysFail) 2 []
      = some (alwaysFail 0, [RetryEvent.call (alwaysFail 0), RetryEvent.sleep 10]) ∧
    RunWithRetry logSleep ⟨2, 10⟩ (seqJob alwaysFail) 4 []
      = some (alwaysFail 2,
          [RetryEvent.call (alwaysFail 0), RetryEvent.sleep 10,
           RetryEvent.call (alwaysFail 1), RetryEvent.sleep 10,
           RetryEvent.call (alwaysFail 2), RetryEvent.sleep 10]) :=
  ⟨by decide, by decide⟩

/-! ## Processing of one dequeued URL -/

/-- C3: when no registered storage pattern matches the URL (in particular when no
storage is registered), `AddDoc` returns the non-nil error `no storage specified for ...`
and leaves the trace as it was: no storage sink is called. -/
theorem AddDoc_no_storage (w : World) (s : SimpleSpider) (urlStr : String) (doc : Doc)
    (tr : List Event)
    (h : ∀ spec, spec ∈ s.storages → spec.regex.MatchString urlStr = false) :
    s.AddDoc w urlStr doc tr
      = (some ⟨"no storage specified for '" ++ urlStr ++ "'"⟩, tr) ∧
    (s.AddDoc w urlStr doc tr).1 ≠ none := by
  have key : ∀ (l : List storageSpec),
      (∀ spec, spec ∈ l → spec.regex.MatchString urlStr = false) →
      SimpleSpider.AddDoc_loop w l urlStr doc tr
        = (some ⟨"no storage specified for '" ++ urlStr ++ "'"⟩, tr) := by
    intro l
    induction l with
    | nil => intro _; rfl
    | cons spec rest ih =>
      intro hl
      have h1 := hl spec (List.mem_cons_self _ _)
      simp only [SimpleSpider.AddDoc_loop, h1]
      exact ih (fun sp hsp => hl sp (List.mem_cons_of_mem _ hsp))
  have hk := key s.storages h
  refine ⟨hk, ?_⟩
  rw [SimpleSpider.AddDoc, hk]
  simp

/-- C3, witness: a record for `/x` on a spider whose only storage pattern does not match. -/
theorem AddDoc_no_storage_witness :
    idleSpider.AddDoc failingWorld "/x" (Doc.structPtr []) []
      = (some ⟨"no storage specified for '" ++ "/x" ++ "'"⟩, []) ∧
    (idleSpider.AddDoc failingWorld "/x" (Doc.structPtr []) []).1 ≠ none :=
  AddDoc_no_storage failingWorld idleSpider "/x" (Doc.structPtr []) []
    (fun spec hspec => by
      simp only [idleSpider, List.mem_singleton] at hspec
      rw [hspec]
      rfl)

/-- C4: when no registered parser pattern matches a dequeued URL, its processing
returns at once with the trace unchanged: nothing is fetched, the retrier is not run,
no parser is called and nothing is stored. -/
theorem crawlLoop_body_skips_unmatched (w : World) (s : SimpleSpider) (urlStr : String)
    (tr : List Event) (fuel : Nat)
    (h : ∀ spec, spec ∈ s.parsers → spec.regex.MatchString urlStr = false) :
    s.docParser urlStr = none ∧ s.crawlLoop_body fuel w urlStr tr = some ⟨tr, false⟩ := by
  have hd : s.docParser urlStr = none := docParser_loop_none s.parsers urlStr h
  refine ⟨hd, ?_⟩
  simp only [SimpleSpider.crawlLoop_body, hd]

/-- C4, witness: `/x` on a spider whose only parser pattern does not match, even
without any fuel for the retrier. -/
theorem crawlLoop_body_skips_unmatched_witness :
    idleSpider.docParser "/x" = none ∧
    idleSpider.crawlLoop_body 0 flakyWorld "/x" [] = some ⟨[], false⟩ :=
  crawlLoop_body_skips_unmatched flakyWorld idleSpider "/x" [] 0
    (fun spec hspec => by
      simp only [idleSpider, List.mem_singleton] at hspec
      rw [hspec]
      rfl)

/-! ## Fetching -/

/-- C6 (amended): when no registered crawler pattern matches the URL (in particular when
no crawler is registered),
* `crawl` is the retrier's `RunWithRetry` run on the job that calls `Get` on the
  spider's client;
* whatever `crawl` returns, it added to the trace only delays and `Get` calls of that
  URL on the spider's client, and the response and error it returns are those of the
  last such call (nil and nil when the retrier made no attempt);
* when `Times < maxInt`, `crawl` does return (any fuel above `Times + 1` suffices): with
  `Times ≥ 0` it returns the response and error of a `Get` call that only delays follow
  in the trace, the last attempt; with `Times < 0` it makes no attempt and returns nil
  and nil. -/
theorem crawl_default_fetch (w : World) (s : SimpleSpider) (urlStr : String) (tr : List Event)
    (h : ∀ spec, spec ∈ s.crawlers → spec.regex.MatchString urlStr = false) :
    (∀ fuel, s.crawl fuel w urlStr tr
      = (RunWithRetry SimpleSpider.crawl_sleep s.retrier
          (SimpleSpider.crawl_job w s Fetcher.clientGet urlStr) fuel
          { trace := tr, resp := none, err := none }).map
          (fun p => ((p.2.resp, p.2.err), p.2.trace))) ∧
    (∀ fuel res tr1, s.crawl fuel w urlStr tr = some (res, tr1) →
      ∃ evs, tr1 = tr ++ evs ∧
        (∀ e, e ∈ evs → (∃ d, e = Event.sleep d) ∨
          (∃ resp err, e = Event.get s.client urlStr resp err)) ∧
        res = lastFetch evs) ∧
    (s.retrier.Times < maxInt → ∀ fuel, (s.retrier.Times + 1).toNat < fuel →
      ∃ (res : Option Response × error) (evs : List Event),
        s.crawl fuel w urlStr tr = some (res, tr ++ evs) ∧
        (∀ e, e ∈ evs → (∃ d, e = Event.sleep d) ∨
          (∃ resp err, e = Event.get s.client urlStr resp err)) ∧
        (0 ≤ s.retrier.Times →
          ∃ pre resp err post, evs = pre ++ Event.get s.client urlStr resp err :: post ∧
            (∀ x, x ∈ post → ∃ d, x = Event.sleep d) ∧ res = (resp, err)) ∧
        (s.retrier.Times < 0 → evs = [] ∧ res = (none, none))) := by
  have hsel := crawl_select_none s.crawlers urlStr h
  have hsafe : ∀ fuel res tr1, s.crawl fuel w urlStr tr = some (res, tr1) →
      ∃ evs, tr1 = tr ++ evs ∧
        (∀ e, e ∈ evs → (∃ d, e = Event.sleep d) ∨
          (∃ resp err, e = Event.get s.client urlStr resp err)) ∧
        res = lastFetch evs := by
    intro fuel res tr1 hc
    obtain ⟨evs, htr, hall, hres⟩ := crawl_trace w s urlStr tr fuel res tr1 hc
    refine ⟨evs, htr, fun e he => ?_, hres⟩
    rcases hall e he with hs | hf
    · cases e <;> simp [Event.isSleep] at hs
      exact Or.inl ⟨_, rfl⟩
    · rw [hsel] at hf
      cases e <;> simp [Event.isFetchBy] at hf
      obtain ⟨hc1, hu⟩ := hf
      subst hc1 hu
      exact Or.inr ⟨_, _, rfl⟩
  refine ⟨fun fuel => ?_, hsafe, fun hmax fuel hfuel => ?_⟩
  · simp only [SimpleSpider.crawl, hsel]
    cases RunWithRetry SimpleSpider.crawl_sleep s.retrier
      (SimpleSpider.crawl_job w s Fetcher.clientGet urlStr) fuel
      { trace := tr, resp := none, err := none } <;> rfl
  · have hret := RunWithRetry_returns SimpleSpider.crawl_sleep s.retrier
      (SimpleSpider.crawl_job w s (SimpleSpider.crawl_select s.crawlers urlStr) urlStr)
      hmax fuel hfuel { trace := tr, resp := none, err := none }
    rcases hv : attemptN SimpleSpider.crawl_sleep s.retrier.Interval
      (SimpleSpider.crawl_job w s (SimpleSpider.crawl_select s.crawlers urlStr) urlStr)
      (s.retrier.Times + 1).toNat none { trace := tr, resp := none, err := none }
      with ⟨e0, v⟩
    rw [hv] at hret
    have hc : s.crawl fuel w urlStr tr = some ((v.resp, v.err), v.trace) := by
      simp only [SimpleSpider.crawl, hret]
    obtain ⟨evs, htr, hall, hres⟩ := hsafe fuel _ _ hc
    refine ⟨(v.resp, v.err), evs, by rw [hc, htr], hall, fun h0 => ?_, fun hneg => ?_⟩
    · obtain ⟨pre, e, post, htr1, hf, hs, hl⟩ :=
        crawl_last_attempt w s urlStr tr h0 fuel _ _ hc
      have hcat : tr ++ evs = tr ++ (pre ++ e :: post) := by
        rw [← htr, htr1, List.append_assoc]
      have hevs : evs = pre ++ e :: post := List.append_cancel_left hcat
      rw [hsel] at hf
      cases e <;> simp [Event.isFetchBy] at hf
      obtain ⟨hc1, hu⟩ := hf
      subst hc1 hu
      refine ⟨pre, _, _, post, hevs, fun x hx => ?_, ?_⟩
      · have hsx := hs x hx
        cases x <;> simp [Event.isSleep] at hsx
        exact ⟨_, rfl⟩
      · rw [hl]
        simp [lastFetch]
    · have hfuel0 : 0 < fuel := by omega
      have hcn := crawl_neg w s urlStr tr hneg fuel hfuel0
      rw [hcn] at hc
      simp only [Option.some.injEq, Prod.mk.injEq] at hc
      have hcat : tr ++ evs = tr ++ [] := by
        rw [← htr, ← hc.2, List.append_nil]
      have hnil : evs = [] := List.append_cancel_left hcat
      exact ⟨hnil, by rw [← hc.1.1, ← hc.1.2]⟩

/-- C6, witness: on a spider whose only crawler pattern does not match, with `Times = 1`
and a first `Get` that times out, `crawl` makes two `Get` calls with one delay in between
and returns the response of the second. -/
theorem crawl_default_fetch_witness :
    idleSpider.crawl 3 flakyWorld "/x" []
      = some ((some ⟨200, "page"⟩, none),
          [Event.get ⟨"http.DefaultClient"⟩ "/x" none (some ⟨"timeout"⟩), Event.sleep 10,
           Event.get ⟨"http.DefaultClient"⟩ "/x" (some ⟨200, "page"⟩) none]) ∧
    ∃ (res : Option Response × error) (evs : List Event),
      idleSpider.crawl 3 flakyWorld "/x" [] = some (res, [] ++ evs) ∧
      (∀ e, e ∈ evs → (∃ d, e = Event.sleep d) ∨
        (∃ resp err, e = Event.get idleSpider.client "/x" resp err)) ∧
      (0 ≤ idleSpider.retrier.Times →
        ∃ pre resp err post, evs = pre ++ Event.get idleSpider.client "/x" resp err :: post ∧
          (∀ x, x ∈ post → ∃ d, x = Event.sleep d) ∧ res = (resp, err)) ∧
      (idleSpider.retrier.Times < 0 → evs = [] ∧ res = (none, none)) :=
  ⟨((crawl_default_fetch flakyWorld idleSpider "/x" []
      (fun spec hspec => by
        simp only [idleSpider, List.mem_singleton] at hspec
        rw [hspec]
        rfl)).1 3).trans (by decide),
    (crawl_default_fetch flakyWorld idleSpider "/x" []
      (fun spec hspec => by
        simp only [idleSpider, List.mem_singleton] at hspec
        rw [hspec]
        rfl)).2.2 (by decide) 3 (by decide)⟩

/-- C6, counterexample: on a spider without crawlers, with `Times = maxInt` and `Get`
calls that always fail, `crawl` never returns, whatever the fuel; and with `Times = -1`
it returns nil and nil without having made any attempt. -/
theorem crawl_maxInt_never_returns :
    (plainSpider ⟨maxInt, 0⟩).crawlers = [] ∧
    (∀ fuel : Nat, (plainSpider ⟨maxInt, 0⟩).crawl fuel failingWorld "/x" [] = none) ∧
    (plainSpider ⟨-1, 0⟩).crawl 1 failingWorld "/x" [] = some ((none, none), []) := by
  refine ⟨rfl, fun fuel => ?_, by decide⟩
  have h := RunWithRetry_loop_maxInt_diverges SimpleSpider.crawl_sleep 0
    (SimpleSpider.crawl_job failingWorld (plainSpider ⟨maxInt, 0⟩) Fetcher.clientGet "/x")
    (fun v => by simp [SimpleSpider.crawl_job, SimpleSpider.fetchResult, failingWorld])
    fuel 0 none { trace := [], resp := none, err := none } (by decide)
  simp only [SimpleSpider.crawl, RunWithRetry]
  have hs : SimpleSpider.crawl_select (plainSpider ⟨maxInt, 0⟩).crawlers "/x"
      = Fetcher.clientGet := rfl
  rw [hs]
  have hr : (plainSpider ⟨maxInt, 0⟩).retrier = ⟨maxInt, 0⟩ := rfl
  rw [hr, h]

/-- C10: assume every fetch capability returns a non-nil response whenever it returns
a nil error.
* Whatever `crawl` returns, the result is a nil response with a nil error exactly when
  `Times < 0`, which is exactly when the trace is unchanged (no attempt was made); with
  `Times ≥ 0` the trace starts with a first fetch attempt.
* With `Times < 0`, `RunWithRetry` returns nil without calling the job, `crawl` returns
  nil, nil without any attempt, and the
  processing of a URL that has a parser calls the parser with the nil response and then
  hits the nil dereference in the success branch.
* With `Times ≥ 0`, no processing of a URL ends in that nil dereference. -/
theorem crawl_nil_response_iff (w : World) (hw : w.WellBehaved) (s : SimpleSpider)
    (urlStr : String) (tr : List Event) :
    (∀ fuel res tr1, s.crawl fuel w urlStr tr = some (res, tr1) →
      ((res.1 = none ∧ res.2 = none) ↔ s.retrier.Times < 0) ∧
      (tr1 = tr ↔ s.retrier.Times < 0) ∧
      (0 ≤ s.retrier.Times → ∃ evs, tr1 = tr ++ s.attemptEvent w urlStr tr 0 :: evs)) ∧
    (s.retrier.Times < 0 → ∀ fuel, 0 < fuel →
      (∀ job v, RunWithRetry SimpleSpider.crawl_sleep s.retrier job fuel v = some (none, v)) ∧
      s.crawl fuel w urlStr tr = some ((none, none), tr) ∧
      ∀ dp, s.docParser urlStr = some dp →
        s.crawlLoop_body fuel w urlStr tr
          = some ⟨tr ++ [Event.parse dp urlStr none (w.Parse tr dp urlStr none)], true⟩) ∧
    (0 ≤ s.retrier.Times → ∀ fuel out, s.crawlLoop_body fuel w urlStr tr = some out →
      out.panicked = false) := by
  refine ⟨fun fuel res tr1 hc => ?_, fun hneg fuel hfuel => ?_, fun h0 fuel out hb => ?_⟩
  · by_cases hneg : s.retrier.Times < 0
    · have hfuel : 0 < fuel := by
        rcases Nat.eq_zero_or_pos fuel with hz | hp
        · subst hz
          simp [SimpleSpider.crawl, RunWithRetry, RunWithRetry_loop] at hc
        · exact hp
      rw [crawl_neg w s urlStr tr hneg fuel hfuel] at hc
      simp only [Option.some.injEq, Prod.mk.injEq] at hc
      obtain ⟨hres, htr⟩ := hc
      subst hres htr
      exact ⟨by simp [hneg], by simp [hneg], fun h0 => absurd hneg (by omega)⟩
    · have h0 : 0 ≤ s.retrier.Times := by omega
      obtain ⟨⟨evs, hevs⟩, hr⟩ := crawl_nonneg w hw s urlStr tr h0 fuel res tr1 hc
      refine ⟨⟨fun hnil => absurd hnil.1 (hr hnil.2), fun h => absurd h hneg⟩,
        ⟨fun heq => ?_, fun h => absurd h hneg⟩, fun _ => ⟨evs, hevs⟩⟩
      rw [heq] at hevs
      have := congrArg List.length hevs
      simp at this
  · have hc := crawl_neg w s urlStr tr hneg fuel hfuel
    refine ⟨fun job v => RunWithRetry_neg SimpleSpider.crawl_sleep s.retrier job hneg fuel hfuel v,
      hc, fun dp hdp => ?_⟩
    simp only [SimpleSpider.crawlLoop_body, hdp, hc]
  · simp only [SimpleSpider.crawlLoop_body] at hb
    cases hdp : s.docParser urlStr with
    | none =>
      rw [hdp] at hb
      simp only [Option.some.injEq] at hb
      rw [← hb]
    | some dp =>
      rw [hdp] at hb
      simp only at hb
      rcases hc : s.crawl fuel w urlStr tr with _ | ⟨⟨resp, err⟩, tr1⟩
      · rw [hc] at hb; simp at hb
      · rw [hc] at hb
        obtain ⟨_, hr⟩ := crawl_nonneg w hw s urlStr tr h0 fuel (resp, err) tr1 hc
        cases err with
        | some e =>
          simp only [Option.some.injEq] at hb
          rw [← hb]
        | none =>
          cases resp with
          | none => exact absurd rfl (hr rfl)
          | some r =>
            simp only [Option.some.injEq] at hb
            rw [← hb]

/-- C10, witness: in a well-behaved world, a spider with `Times = -1` returns nil, nil
from `crawl` without any attempt, and the processing of a URL with a parser ends in the
nil dereference after the parser was called with the nil response. -/
theorem crawl_nil_response_iff_witness :
    (plainSpider ⟨-1, 10⟩).crawl 1 flakyWorld "/x" [] = some ((none, none), []) ∧
    (plainSpider ⟨-1, 10⟩).crawlLoop_body 1 flakyWorld "/x" []
      = some ⟨[Event.parse ⟨"parser"⟩ "/x" none (some ⟨"bad payload"⟩)], true⟩ :=
  have h := (crawl_nil_response_iff flakyWorld
    ⟨fun tr client u => by simp only [flakyWorld]; split <;> simp,
     fun tr c client u => by simp only [flakyWorld]; split <;> simp⟩
    (plainSpider ⟨-1, 10⟩) "/x" []).2.1 (by decide) 1 (by decide)
  ⟨h.2.1, h.2.2 ⟨"parser"⟩ rfl⟩

/-! ## First match wins -/

/-- C2: let the spider `s` be the result of any sequence of `AddDocParser`,
`AddCrawler` and `AddStorage` calls on a new spider `s0`.  For every URL,
* `docParser` returns the parser of the earliest parser registration whose pattern
  matches, and it is the only parser the processing of the URL calls;
* `crawl` selects the crawler of the earliest matching crawler registration, and all
  fetch calls it makes are calls of that crawler;
* `AddDoc` calls the storage of the earliest matching storage registration, once, and
  returns what it returns;
whatever was registered later. -/
theorem registry_first_match (MustCompile : String → Option Regexp) (w : World)
    (client : Client) (maxCrawls : Int) (retrier : SimpleRetrier)
    (regs : List Registration) (s0 s : SimpleSpider) (urlStr : String)
    (hnew : NewSimpleSpider client maxCrawls retrier = some s0)
    (hreg : SimpleSpider.registerAll MustCompile s0 regs = some s) :
    (∀ dp, EarliestMatch (patternMatches MustCompile urlStr) (parserEntries regs) dp →
      s.docParser urlStr = some dp ∧
      ∀ fuel tr out, s.crawlLoop_body fuel w urlStr tr = some out →
        ∃ evs, out.trace = tr ++ evs ∧
          ∀ dp1 u resp err, Event.parse dp1 u resp err ∈ evs → dp1 = dp) ∧
    (∀ c, EarliestMatch (patternMatches MustCompile urlStr) (crawlerEntries regs) c →
      SimpleSpider.crawl_select s.crawlers urlStr = Fetcher.viaCrawler c ∧
      ∀ fuel tr res tr1, s.crawl fuel w urlStr tr = some (res, tr1) →
        ∃ evs, tr1 = tr ++ evs ∧
          ∀ e, e ∈ evs → (∃ d, e = Event.sleep d) ∨
            (∃ resp err, e = Event.crawl c client urlStr resp err)) ∧
    (∀ st, EarliestMatch (patternMatches MustCompile urlStr) (storageEntries regs) st →
      ∀ doc tr, s.AddDoc w urlStr doc tr
        = (w.AddDoc tr st doc, tr ++ [Event.addDoc st doc (w.AddDoc tr st doc)])) := by
  obtain ⟨hcl, hp, hc, hs⟩ := registerAll_registries MustCompile urlStr regs s0 s hreg
  have hs0 : s0 = ⟨client, [], [], [], retrier⟩ := by
    unfold NewSimpleSpider at hnew
    split at hnew
    · simp at hnew
    · simp only [Option.some.injEq] at hnew
      exact hnew.symm
  subst hs0
  simp only [List.map_nil, List.nil_append] at hcl hp hc hs
  refine ⟨fun dp hdp => ?_, fun c hcm => ?_, fun st hst doc tr => ?_⟩
  · have hd : s.docParser urlStr = some dp := by
      rw [SimpleSpider.docParser, docParser_loop_eq_firstMatch, hp]
      exact firstMatch_of_earliest _ _ dp hdp
    exact ⟨hd, fun fuel tr out hb => crawlLoop_body_parse_events w s urlStr tr dp hd fuel out hb⟩
  · have hsel : SimpleSpider.crawl_select s.crawlers urlStr = Fetcher.viaCrawler c := by
      rw [crawl_select_eq_firstMatch, hc, firstMatch_of_earliest _ _ c hcm]
    refine ⟨hsel, fun fuel tr res tr1 hrun => ?_⟩
    obtain ⟨evs, htr, hall, _⟩ := crawl_trace w s urlStr tr fuel res tr1 hrun
    refine ⟨evs, htr, fun e he => ?_⟩
    rcases hall e he with hsl | hf
    · cases e <;> simp [Event.isSleep] at hsl
      exact Or.inl ⟨_, rfl⟩
    · rw [hsel] at hf
      cases e <;> simp [Event.isFetchBy] at hf
      obtain ⟨h1, h2, h3⟩ := hf
      subst h1 h3
      rw [h2, hcl]
      exact Or.inr ⟨_, _, rfl⟩
  · rw [SimpleSpider.AddDoc, AddDoc_loop_eq_firstMatch, hs,
      firstMatch_of_earliest _ _ st hst]

/-- C2, witness: with parsers registered as `^/a/` for parser A and then `^/` for
parser B, the URL `/a/x` goes to parser A although `^/` matches it too, and `/b/x` goes
to parser B. -/
theorem registry_first_match_witness :
    ∃ s0 s, NewSimpleSpider ⟨"http.DefaultClient"⟩ 2 ⟨3, 10⟩ = some s0 ∧
      SimpleSpider.registerAll anchoredLiteral s0 scenarioRegs = some s ∧
      patternMatches anchoredLiteral "/a/x" "^/" = true ∧
      s.docParser "/a/x" = some ⟨"parserA"⟩ ∧ s.docParser "/b/x" = some ⟨"parserB"⟩ :=
  ⟨_, _, rfl, rfl, by decide,
    ((registry_first_match anchoredLiteral failingWorld ⟨"http.DefaultClient"⟩ 2 ⟨3, 10⟩
      scenarioRegs _ _ "/a/x" rfl rfl).1 ⟨"parserA"⟩
      ⟨0, "^/a/", rfl, by decide, fun j p b hj _ => absurd hj (by omega)⟩).1,
    ((registry_first_match anchoredLiteral failingWorld ⟨"http.DefaultClient"⟩ 2 ⟨3, 10⟩
      scenarioRegs _ _ "/b/x" rfl rfl).1 ⟨"parserB"⟩
      ⟨1, "^/", rfl, by decide, fun j p b hj hjp => by
        have hj0 : j = 0 := by omega
        subst hj0
        simp only [scenarioRegs, parserEntries, List.getElem?_cons_zero, Option.some.injEq,
          Prod.mk.injEq] at hjp
        rw [← hjp.1]
        decide⟩).1⟩

/-! ## Generic record insertion -/

/-- C8 (amended): let the record be a pointer to a struct whose `table` field `tf` holds
the string `T` and whose column fields (at least one) are exported and carry pairwise
distinct tags, and let `range` visit the column map in any order.  Then `AddDoc`
executes exactly one statement, `INSERT INTO T (c1, ..., cn) VALUES (?, ..., ?)` with `n`
placeholders, where the pairs of column `ci` and `i`-th argument are a permutation of the
pairs of tag and value of the column fields (fields without tag contribute nothing), and
it returns the error of that execution. -/
theorem SqlStorage_AddDoc_statement (s : SqlStorage)
    (rangeOrder : List (String × Value) → List (String × Value))
    (fields : List StructField) (tf : StructField) (T : String) (executed : List Stmt)
    (hrange : ∀ m, (rangeOrder m).Perm m)
    (htf : tf ∈ fields) (htag : tf.sqlTag = SQL_STRUCT_TAG_TABLE) (hT : tf.value = Value.str T)
    (huniq : ∀ sf, sf ∈ fields → sf.sqlTag = SQL_STRUCT_TAG_TABLE → sf = tf)
    (hne : columnFields fields ≠ [])
    (hexp : ∀ sf, sf ∈ columnFields fields → sf.exported = true)
    (hnodup : ((columnFields fields).map (fun sf => sf.sqlTag)).Nodup) :
    ∃ ordered : List (String × Value),
      ordered.Perm ((columnFields fields).map (fun sf => (sf.sqlTag, sf.value))) ∧
      (ordered.map Prod.fst).Nodup ∧
      s.AddDoc rangeOrder (Doc.structPtr fields) executed
        = Except.ok
            (s.Exec executed
              ⟨"INSERT INTO " ++ T ++ " (" ++ ", ".intercalate (ordered.map Prod.fst)
                ++ ") VALUES ("
                ++ ", ".intercalate (List.replicate (columnFields fields).length "?") ++ ")",
               ordered.map Prod.snd⟩,
             executed ++
              [⟨"INSERT INTO " ++ T ++ " (" ++ ", ".intercalate (ordered.map Prod.fst)
                ++ ") VALUES ("
                ++ ", ".intercalate (List.replicate (columnFields fields).length "?") ++ ")",
               ordered.map Prod.snd⟩]) := by
  have hloop := AddDoc_loop_eq fields "" []
    (fun sf hsf hs => ⟨T, by rw [huniq sf hsf hs]; exact hT⟩) hexp
  have hname : tableName fields "" = T :=
    tableName_eq T fields "" (fun sf hsf hs => by rw [huniq sf hsf hs]; exact hT)
      ⟨tf, htf, htag⟩
  have hmap : columnMapFrom [] fields
      = (columnFields fields).map (fun sf => (sf.sqlTag, sf.value)) := by
    rw [columnMapFrom, foldl_mapSet_nodup _ [] (by simpa using hnodup), List.nil_append]
  rw [hname, hmap] at hloop
  have hperm := hrange ((columnFields fields).map (fun sf => (sf.sqlTag, sf.value)))
  refine ⟨rangeOrder ((columnFields fields).map (fun sf => (sf.sqlTag, sf.value))), hperm, ?_, ?_⟩
  · have hp := (hperm.map Prod.fst).nodup_iff
    rw [hp, List.map_map]
    exact hnodup
  · have hlen := hperm.length_eq
    rw [List.length_map] at hlen
    simp only [SqlStorage.AddDoc, hloop, SqlStorage.insert]
    rcases hord : rangeOrder ((columnFields fields).map (fun sf => (sf.sqlTag, sf.value)))
      with _ | ⟨e, rest⟩
    · rw [hord] at hlen
      exact absurd (List.length_eq_zero.mp hlen.symm) hne
    · rw [hord] at hlen
      simp only [List.length_cons] at hlen
      rw [hord, insert_loop_first]
      have hcount : ((((e :: rest).map Prod.snd).length : Int) - 1) = (rest.length : Int) := by
        simp
      have hrep : stringsRepeat "?, " ((((e :: rest).map Prod.snd).length : Int) - 1)
          = some (String.join (List.replicate rest.length "?, ")) := by
        rw [hcount]
        simp [stringsRepeat]
      have hclose : ("?)" : String) = "?" ++ ")" := by decide
      have hq : "INSERT INTO " ++ T ++ " (" ++ ", ".intercalate ((e :: rest).map Prod.fst)
            ++ ") VALUES (" ++ String.join (List.replicate rest.length "?, ") ++ "?)"
          = "INSERT INTO " ++ T ++ " (" ++ ", ".intercalate ((e :: rest).map Prod.fst)
            ++ ") VALUES ("
            ++ ", ".intercalate (List.replicate (columnFields fields).length "?") ++ ")" := by
        rw [← hlen, ← marks_eq, hclose]
        simp only [String.append_assoc]
      simp only [hrep, hq]

/-- C8, witness: the record `{table: "t", id: 1, name: "x"}` with `range` visiting the
column map in reverse order of insertion: one statement with the columns `name, id`,
two placeholders and the arguments in the order of the columns. -/
theorem SqlStorage_AddDoc_statement_witness :
    (∃ ordered : List (String × Value),
      ordered.Perm [("id", Value.int 1), ("name", Value.str "x")] ∧
      (ordered.map Prod.fst).Nodup ∧
      acceptingDB.AddDoc List.reverse (Doc.structPtr scenarioRow) []
        = Except.ok
            (none,
             [⟨"INSERT INTO " ++ "t" ++ " (" ++ ", ".intercalate (ordered.map Prod.fst)
                ++ ") VALUES (" ++ ", ".intercalate (List.replicate 2 "?") ++ ")",
               ordered.map Prod.snd⟩])) ∧
    acceptingDB.AddDoc List.reverse (Doc.structPtr scenarioRow) []
      = Except.ok (none, [⟨"INSERT INTO t (name, id) VALUES (?, ?)",
          [Value.str "x", Value.int 1]⟩]) :=
  ⟨SqlStorage_AddDoc_statement acceptingDB List.reverse scenarioRow
      ⟨"Table", true, "table", Value.str "t"⟩ "t" [] (fun m => List.reverse_perm m)
      (by decide) rfl rfl (by decide) (by decide) (by decide) (by decide),
    rfl⟩

/-- C8, counterexample: the record `{table: "t", id: 1}` whose column field `id` is not
exported has a `table` string field and one further field with a tag of its own, yet
`AddDoc` executes no statement: `fv.Interface()` panics on the field. -/
theorem SqlStorage_AddDoc_unexported_panics :
    (⟨"Table", true, "table", Value.str "t"⟩ : StructField) ∈ privateRow ∧
    (columnFields privateRow).map (fun sf => sf.sqlTag) = ["id"] ∧
    acceptingDB.AddDoc List.reverse (Doc.structPtr privateRow) []
      = Except.error (Crash.panic
          "reflect.Value.Interface: cannot return value obtained from unexported field or method") :=
  ⟨by decide, by decide, rfl⟩

end dspider
